import Mathlib

/-!
# Pose2MobileArm: forward kinematics of a planar base carrying an arm

Shallow embedding of `gpmp2/kinematics/Pose2MobileArm.cpp`.

Scalars are elements of an arbitrary commutative ring `α` (the C++ code uses
`double`; every statement below holds for exact arithmetic over any such ring,
in particular over the reals).  Fixed-size Eigen matrices (`Matrix3`,
`Matrix6`, `Matrix63`) are Mathlib matrices indexed by `Fin`; the dynamic
`gtsam::Matrix` is `DMatrix`, which carries its run-time shape.  `std::vector`
is `List`.  The optional reference arguments of `forwardKinematics`
(`boost::optional<T&>`) are `Option T` fields of the call state: `none` means
"not requested", `some x` means "requested, and the caller's object currently
holds `x`".
-/

namespace gpmp2

/-! ## Linear-algebra types -/

/-- The type `gtsam::Vector3`. -/
abbrev Vector3 (α : Type) := Fin 3 → α

/-- The type `gtsam::Matrix3`. -/
abbrev Matrix3 (α : Type) := Matrix (Fin 3) (Fin 3) α

/-- The type `gtsam::Matrix6`. -/
abbrev Matrix6 (α : Type) := Matrix (Fin 6) (Fin 6) α

/-- The type `gtsam::Matrix63`. -/
abbrev Matrix63 (α : Type) := Matrix (Fin 6) (Fin 3) α

/-- The type `gtsam::Matrix` (`Eigen::MatrixXd`): a matrix whose shape is a
run-time value.  `coeff i j` is the entry in row `i`, column `j`; only the
entries with `i < rows` and `j < cols` are part of the matrix. -/
structure DMatrix (α : Type) where
  rows : Nat
  cols : Nat
  coeff : Nat → Nat → α

/-- The Eigen expression `Matrix::Zero(r, c)`. -/
def DMatrix.Zero {α : Type} [Zero α] (r c : Nat) : DMatrix α :=
  ⟨r, c, fun _ _ => 0⟩

/-- The Eigen assignment `M.block<r,c>(i0, j0) = B` for a fixed-size `B`.
The block has to lie inside `M`; otherwise the behaviour is
undefined (`none`). -/
def DMatrix.setBlockFixed {α : Type} {r c : Nat} (M : DMatrix α) (i0 j0 : Nat)
    (B : Matrix (Fin r) (Fin c) α) : Option (DMatrix α) :=
  if i0 + r ≤ M.rows ∧ j0 + c ≤ M.cols then
    some ⟨M.rows, M.cols, fun i j =>
      if h : (i0 ≤ i ∧ i - i0 < r) ∧ (j0 ≤ j ∧ j - j0 < c) then
        B ⟨i - i0, h.1.2⟩ ⟨j - j0, h.2.2⟩
      else M.coeff i j⟩
  else none

/-- The Eigen assignment `M.block(i0, j0, r, c) = B` for a dynamic `B`.
The block has to lie inside `M` and `B` has to be `r × c`; otherwise
the behaviour is undefined (`none`). -/
def DMatrix.setBlock {α : Type} (M : DMatrix α) (i0 j0 r c : Nat)
    (B : DMatrix α) : Option (DMatrix α) :=
  if (i0 + r ≤ M.rows ∧ j0 + c ≤ M.cols) ∧ (B.rows = r ∧ B.cols = c) then
    some ⟨M.rows, M.cols, fun i j =>
      if (i0 ≤ i ∧ i - i0 < r) ∧ (j0 ≤ j ∧ j - j0 < c) then
        B.coeff (i - i0) (j - j0)
      else M.coeff i j⟩
  else none

/-- The Eigen assignment `J.block<r,c>(i0, j0) = B` on a fixed-size matrix. -/
def setBlock {α : Type} {m n r c : Nat} (J : Matrix (Fin m) (Fin n) α)
    (i0 j0 : Nat) (B : Matrix (Fin r) (Fin c) α) : Matrix (Fin m) (Fin n) α :=
  Matrix.of fun i j =>
    if h : (i0 ≤ i.val ∧ i.val - i0 < r) ∧ (j0 ≤ j.val ∧ j.val - j0 < c) then
      B ⟨i.val - i0, h.1.2⟩ ⟨j.val - j0, h.2.2⟩
    else J i j

/-- The function `gtsam::skewSymmetric(wx, wy, wz)`. -/
def skewSymmetric {α : Type} [CommRing α] (w : Vector3 α) : Matrix3 α :=
  !![0, -(w 2), w 1; w 2, 0, -(w 0); -(w 1), w 0, 0]

/-! ## Poses -/

/-- The type `gtsam::Pose2`, seen through its accessors `x()`, `y()`,
`theta()`. -/
structure Pose2 (α : Type) where
  x : α
  y : α
  theta : α

/-- The type `gtsam::Pose3`: rotation matrix `R` and translation `t`. -/
structure Pose3 (α : Type) where
  R : Matrix3 α
  t : Vector3 α

namespace Pose3

variable {α : Type} [CommRing α]

/-- The default constructor `Pose3()` and `Pose3::identity()`. -/
def identity : Pose3 α := ⟨1, 0⟩

/-- The method `Pose3::operator*` (also the value of `compose`):
`Pose3(R_ * T.R_, t_ + R_ * T.t_)`. -/
def mul (a b : Pose3 α) : Pose3 α :=
  ⟨a.R * b.R, a.t + a.R.mulVec b.t⟩

/-- The method `Pose3::inverse()`: `Pose3(Rt, Rt * (-t_))` with
`Rt = R_.inverse()`, the transpose. -/
def inverse (a : Pose3 α) : Pose3 α :=
  ⟨a.R.transpose, a.R.transpose.mulVec (-a.t)⟩

/-- The method `Pose3::AdjointMap()`: the 6x6 matrix `[R 0; [t]x R, R]`. -/
def AdjointMap (a : Pose3 α) : Matrix6 α :=
  let A : Matrix3 α := skewSymmetric a.t * a.R
  Matrix.of fun i j =>
    if hi : i.val < 3 then
      if hj : j.val < 3 then a.R ⟨i.val, hi⟩ ⟨j.val, hj⟩ else 0
    else
      if hj : j.val < 3 then A ⟨i.val - 3, by omega⟩ ⟨j.val, hj⟩
      else a.R ⟨i.val - 3, by omega⟩ ⟨j.val - 3, by omega⟩

/-- The value written to `H1` by `a.compose(g, H1)`:
`g.inverse().AdjointMap()`. -/
def composeH1 (_a g : Pose3 α) : Matrix6 α :=
  AdjointMap (inverse g)

/-- The method `a.compose(g, H1)`: the composed pose together with the
Jacobian with respect to the left operand. -/
def compose (a g : Pose3 α) : Pose3 α × Matrix6 α :=
  (mul a g, composeH1 a g)

end Pose3

/-- The two rotation primitives of the rigid-body library (gtsam) that the
file calls; the library is not part of the repository, so they are
parameters of the embedding. -/
structure Rot3Lib (α : Type) where
  /-- The function `gtsam::Rot3::Rodrigues(Vector3)`, as a rotation matrix. -/
  Rodrigues : Vector3 α → Matrix3 α
  /-- The function `gtsam::Rot3::ExpmapDerivative(Vector3)`. -/
  ExpmapDerivative : Vector3 α → Matrix3 α

section Lift

variable {α : Type} [CommRing α]

/-- The method `Pose2MobileArm::computeBasePose3(base_pose2, J)`.
`J = none` is the call without a Jacobian; `J = some J0` is the call
with a Jacobian whose contents before the call are `J0`.  Returns the pose
and the contents of `J` after the call. -/
def computeBasePose3 (L : Rot3Lib α) (base_pose2 : Pose2 α)
    (J : Option (Matrix63 α)) : Pose3 α × Option (Matrix63 α) :=
  let J' := J.map fun _J0 =>
    -- J->setZero();
    let J1 : Matrix63 α := 0
    let Hzrot3 : Matrix3 α := L.ExpmapDerivative ![0, 0, base_pose2.theta]
    -- J->block<3, 1>(0, 2) = Hzrot3.col(2);
    let J2 := setBlock J1 0 2 (Matrix.of fun (i : Fin 3) (_ : Fin 1) => Hzrot3 i 2)
    -- J->block<2, 2>(3, 0) = Matrix2::Identity();
    setBlock J2 3 0 (1 : Matrix (Fin 2) (Fin 2) α)
  (⟨L.Rodrigues ![0, 0, base_pose2.theta],
    ![base_pose2.x, base_pose2.y, 0]⟩, J')

/-- The method `Pose2MobileArm::computeArmBasePose(base_pose2, J)` of an
object whose mount transform is `base_T_arm`.  The local `Hbasep3` is
declared without an initialiser; its contents before the inner call are
taken to be zero (`computeBasePose3` overwrites every entry of it). -/
def computeArmBasePose (L : Rot3Lib α) (base_T_arm : Pose3 α)
    (base_pose2 : Pose2 α) (J : Option (Matrix63 α)) :
    Pose3 α × Option (Matrix63 α) :=
  match J with
  | some _ =>
    let Hbasep3₀ : Matrix63 α := 0
    let r := computeBasePose3 L base_pose2 (some Hbasep3₀)
    let base_pose3 := r.1
    let Hbasep3 := r.2.getD Hbasep3₀
    let (arm_base, Hcomp) := base_pose3.compose base_T_arm
    -- *J = Hcomp * Hbasep3;
    (arm_base, some (Hcomp * Hbasep3))
  | none => (((computeBasePose3 L base_pose2 none).1.compose base_T_arm).1, none)

end Lift

/-! ## The arm (chain module) -/

/-- The outputs of one call of the arm's `forwardKinematics`. -/
structure ArmOutput (α : Type) where
  jpx : List (Pose3 α)
  jvx : List (Vector3 α)
  J_jpx_jp : List (DMatrix α)
  J_jvx_jp : List (DMatrix α)
  J_jvx_jv : List (DMatrix α)

/-- Modelled from the spec: the manipulator chain module `Arm`
(`gpmp2/kinematics/Arm.h`, `Arm.cpp`), which is not among the sources.  The
spec gives its interface: `dof()`, a settable current base pose, and
`forwardKinematics(jointAngles, optionalJointVelocities)` returning link
poses, optional link velocities and the optional Jacobian lists.
`kinematics base jp jv rvx rJp rJvp rJvv` is what the arm computes when its
current base pose is `base`; the four booleans tell which optional outputs
are requested. -/
structure Arm (α : Type) where
  dof : Nat
  base_pose : Pose3 α
  kinematics : Pose3 α → List α → Option (List α) →
    Bool → Bool → Bool → Bool → ArmOutput α

/-- The call `arm.updateBasePose(pose)`: overrides the arm's current base
pose. -/
def Arm.updateBasePose {α : Type} (a : Arm α) (pose : Pose3 α) : Arm α :=
  { a with base_pose := pose }

/-- The call `arm.forwardKinematics(jp, jv, jpx, jvx, J_jpx_jp, J_jvx_jp,
J_jvx_jv)`, evaluated at the arm's current base pose. -/
def Arm.forwardKinematics {α : Type} (a : Arm α) (jp : List α)
    (jv : Option (List α)) (rvx rJp rJvp rJvv : Bool) : ArmOutput α :=
  a.kinematics a.base_pose jp jv rvx rJp rJvp rJvv

/-! ## The mobile arm and its forward kinematics -/

/-- The type `Pose2Vector`: a planar base pose and the joint-angle vector. -/
structure Pose2Vector (α : Type) where
  pose : Pose2 α
  configuration : List α

/-- The class `Pose2MobileArm`: `dof_` and `nr_links_` are the members of the
base class `ForwardKinematics`, read by `dof()` and `nr_links()`. -/
structure Pose2MobileArm (α : Type) where
  dof_ : Nat
  nr_links_ : Nat
  base_T_arm_ : Pose3 α
  arm_ : Arm α

/-- The constructor `Pose2MobileArm(arm, base_T_arm)`:
`Base(arm.dof() + 3, arm.dof() + 1), base_T_arm_(base_T_arm), arm_(arm)`.
Its body only prints a warning when the arm's base pose is not the identity. -/
def Pose2MobileArm.new {α : Type} (arm : Arm α) (base_T_arm : Pose3 α) :
    Pose2MobileArm α :=
  ⟨arm.dof + 3, arm.dof + 1, base_T_arm, arm⟩

/-- Everything a call of `forwardKinematics` can read and write: the object
itself (its member `arm_` is updated) and the caller's output objects. -/
structure FKState (α : Type) where
  robot : Pose2MobileArm α
  px : List (Pose3 α)
  vx : Option (List (Vector3 α))
  J_px_p : Option (List (DMatrix α))
  J_vx_p : Option (List (DMatrix α))
  J_vx_v : Option (List (DMatrix α))

/-- The two `runtime_error`s thrown by `forwardKinematics`. -/
inductive FKError where
  /-- The message "[Pose2MobileArm] TODO: velocity not implemented". -/
  | notImplemented
  /-- The message "[Pose2MobileArm] ERROR: only ask for velocity in workspace
  given velocity in configuration space". -/
  | invalidRequest
  deriving DecidableEq

/-- How a call of `forwardKinematics` ends. -/
inductive Outcome (α : Type) where
  /-- Normal return, with the state after the call. -/
  | returns (s : FKState α)
  /-- An exception leaves the function, with the state at the throw. -/
  | throws (e : FKError) (s : FKState α)
  /-- Undefined behaviour: an access outside a vector or matrix, a block
  assignment of the wrong shape, or a read through an absent optional. -/
  | undefined

/-- The call `xs.resize(n)` of `std::vector`; new elements are `fill`. -/
def resize {β : Type} (xs : List β) (n : Nat) (fill : β) : List β :=
  xs.take n ++ List.replicate (n - xs.length) fill

/-- The assignment `xs[i] = x` of `std::vector`, undefined outside the
vector. -/
def setAt {β : Type} (xs : List β) (i : Nat) (x : β) : Option (List β) :=
  if i < xs.length then some (xs.set i x) else none

section FK

variable {α : Type} [CommRing α]

/-- Lines 43-48, "space for output".  `resize` appends default-constructed
elements: `Pose3()` is the identity; a new `Vector3` is left uninitialised by
Eigen and is taken to be zero. -/
def allocate (s : FKState α) : FKState α :=
  { s with
    px := resize s.px s.robot.nr_links_ Pose3.identity
    vx := s.vx.map fun vx => resize vx s.robot.nr_links_ 0
    J_px_p := s.J_px_p.map fun _ =>
      List.replicate s.robot.nr_links_ (DMatrix.Zero 6 s.robot.dof_)
    J_vx_p := s.J_vx_p.map fun _ =>
      List.replicate s.robot.nr_links_ (DMatrix.Zero 3 s.robot.dof_)
    J_vx_v := s.J_vx_v.map fun _ =>
      List.replicate s.robot.nr_links_ (DMatrix.Zero 3 s.robot.dof_) }

/-- The locals `veh_base`, `arm_base`, `Hveh_base`, `Harm_base`. -/
structure BasePoses (α : Type) where
  veh_base : Pose3 α
  arm_base : Pose3 α
  Hveh_base : Matrix63 α
  Harm_base : Matrix63 α

/-- Lines 50-59, "vehicle & arm base pose".  `Hveh_base` and `Harm_base` are
declared without an initialiser; their contents before the calls are taken to
be zero.  They are read only where `J_px_p` is requested, in which case the
first branch has written them. -/
def basePoses (L : Rot3Lib α) (p : Pose2Vector α) (s : FKState α) :
    BasePoses α :=
  let H₀ : Matrix63 α := 0
  if s.J_px_p.isSome || s.J_vx_p.isSome || s.J_vx_v.isSome then
    let rv := computeBasePose3 L p.pose (some H₀)
    let ra := computeArmBasePose L s.robot.base_T_arm_ p.pose (some H₀)
    ⟨rv.1, ra.1, rv.2.getD H₀, ra.2.getD H₀⟩
  else
    ⟨(computeBasePose3 L p.pose none).1,
     (computeArmBasePose L s.robot.base_T_arm_ p.pose none).1, H₀, H₀⟩

/-- Lines 66-74, "veh base link". -/
def baseLink (b : BasePoses α) (v : Option (List α)) (s : FKState α) :
    Option (FKState α) := do
  -- px[0] = veh_base;
  let px ← setAt s.px 0 b.veh_base
  -- if (J_px_p) (*J_px_p)[0].block<6,3>(0,0) = Hveh_base;
  let J_px_p ← (match s.J_px_p with
    | none => some none
    | some J => do
      let J0 ← J[0]?
      let J0 ← J0.setBlockFixed 0 0 b.Hveh_base
      some (some (J.set 0 J0)))
  -- if (vx) { ... }
  (match s.vx with
    | none => some { s with px := px, J_px_p := J_px_p }
    | some vx => do
      -- (*vx)[0] = Vector3((*v)[0], (*v)[1], 0.0);
      let vv ← v
      let v0 ← vv[0]?
      let v1 ← vv[1]?
      let vx ← setAt vx 0 ![v0, v1, 0]
      -- if (J_vx_v) (*J_vx_v)[0].block<2,2>(0,0) = Matrix2::Identity();
      let J_vx_v ← (match s.J_vx_v with
        | none => some none
        | some J => do
          let J0 ← J[0]?
          let J0 ← J0.setBlockFixed 0 0 (1 : Matrix (Fin 2) (Fin 2) α)
          some (some (J.set 0 J0)))
      some { s with px := px, J_px_p := J_px_p, vx := some vx, J_vx_v := J_vx_v })

/-- The locals `armjpx`, `armjvx`, `Jarm_jpx_jp`, `Jarm_jvx_jp`,
`Jarm_jvx_jv` after the call of the arm in lines 81-87: a local that was
passed holds what the arm returned, one that was not passed is still
empty. -/
def armLocals (out : ArmOutput α) (s : FKState α) : ArmOutput α :=
  { jpx := out.jpx
    jvx := if s.vx.isSome then out.jvx else []
    J_jpx_jp := if s.J_px_p.isSome then out.J_jpx_jp else []
    J_jvx_jp := if s.J_vx_p.isSome then out.J_jvx_jp else []
    J_jvx_jv := if s.J_vx_v.isSome then out.J_jvx_jv else [] }

/-- The body of the loop in lines 89-99 for one `i`. -/
def armLinkStep (b : BasePoses α) (arm : ArmOutput α) (i : Nat)
    (s : FKState α) : Option (FKState α) := do
  -- px[i+1] = armjpx[i];
  let armjpx_i ← arm.jpx[i]?
  let px ← setAt s.px (i + 1) armjpx_i
  -- if (J_px_p) { ... }
  let J_px_p ← (match s.J_px_p with
    | none => some none
    | some J => do
      let Ji ← J[i + 1]?
      -- (*J_px_p)[i+1].block<6,3>(0,0) =
      --   (armjpx[i].inverse() * arm_base).AdjointMap() * Harm_base;
      let Ji ← Ji.setBlockFixed 0 0
        ((armjpx_i.inverse.mul b.arm_base).AdjointMap * b.Harm_base)
      -- (*J_px_p)[i+1].block(0,3,6,arm_.dof()) = Jarm_jpx_jp[i];
      let Jarm_i ← arm.J_jpx_jp[i]?
      let Ji ← Ji.setBlock 0 3 6 s.robot.arm_.dof Jarm_i
      some (some (J.set (i + 1) Ji)))
  -- if (vx) { }
  some { s with px := px, J_px_p := J_px_p }

/-- The loop `for (size_t i = 0; i < arm_.dof(); i++)` of lines 89-99, with
`n` iterations left to run from index `i`. -/
def armLinks (b : BasePoses α) (arm : ArmOutput α) :
    Nat → Nat → FKState α → Option (FKState α)
  | 0, _, s => some s
  | n + 1, i, s =>
    match armLinkStep b arm i s with
    | some s' => armLinks b arm n (i + 1) s'
    | none => none

/-- The argument `v ? optional(v->tail(arm_.dof())) : 0` of line 83. -/
def velocityTail (v : Option (List α)) (n : Nat) : Option (Option (List α)) :=
  match v with
  | none => some none
  | some vv => if n ≤ vv.length then some (some (vv.drop (vv.length - n))) else none

/-- Lines 43-99 of `forwardKinematics`: everything after the two guards. -/
def forwardKinematicsBody (L : Rot3Lib α) (p : Pose2Vector α)
    (v : Option (List α)) (s : FKState α) : Option (FKState α) := do
  let s := allocate s
  let b := basePoses L p s
  let s ← baseLink b v s
  -- arm_.updateBasePose(arm_base);
  let arm_ := s.robot.arm_.updateBasePose b.arm_base
  let s := { s with robot := { s.robot with arm_ := arm_ } }
  let jv ← velocityTail v arm_.dof
  let out := arm_.forwardKinematics p.configuration jv
    s.vx.isSome s.J_px_p.isSome s.J_vx_p.isSome s.J_vx_v.isSome
  armLinks b (armLocals out s) arm_.dof 0 s

/-- The method `Pose2MobileArm::forwardKinematics(p, v, px, vx, J_px_p,
J_vx_p, J_vx_v)`; `s` holds the object and the five output arguments. -/
def forwardKinematics (L : Rot3Lib α) (p : Pose2Vector α)
    (v : Option (List α)) (s : FKState α) : Outcome α :=
  if v.isSome then
    .throws .notImplemented s
  else if !v.isSome && (s.vx.isSome || s.J_vx_p.isSome || s.J_vx_v.isSome) then
    .throws .invalidRequest s
  else
    match forwardKinematicsBody L p v s with
    | some s' => .returns s'
    | none => .undefined

end FK

/-- What one iteration of the loop writes into `(*J_px_p)[i+1]` when that
matrix holds `Ji` before: the two block assignments of lines 93-94. -/
def linkJacobian {α : Type} [CommRing α] (b : BasePoses α) (arm : ArmOutput α)
    (dof i : Nat) (Ji : DMatrix α) : Option (DMatrix α) := do
  let armjpx_i ← arm.jpx[i]?
  let Ji ← Ji.setBlockFixed 0 0
    ((armjpx_i.inverse.mul b.arm_base).AdjointMap * b.Harm_base)
  let Jarm_i ← arm.J_jpx_jp[i]?
  Ji.setBlock 0 3 6 dof Jarm_i

/-! ## Concrete instances used for evaluation -/

/-- The rotation primitives as the library computes them on its small-angle
branch, `Rodrigues w = I + [w]x` and `ExpmapDerivative w = I - [w]x / 2`.
This is the branch taken at the zero rotation vector, where both return the
identity. -/
def smallAngleLib : Rot3Lib ℚ where
  Rodrigues w := 1 + skewSymmetric w
  ExpmapDerivative w := 1 - (1 / 2 : ℚ) • skewSymmetric w

/-- A one-joint arm whose link sits at offset `d` along the local x-axis of
the joint frame: for joint angle `q` the link pose is
`base * (Rz(q), Rz(q) (d, 0, 0))`, and its Jacobian with respect to `q` is the
column `(0, 0, 1, 0, d, 0)`. -/
def oneJointArm {α : Type} [CommRing α] (L : Rot3Lib α) (d : α) : Arm α where
  dof := 1
  base_pose := Pose3.identity
  kinematics base jp _ _ _ _ _ :=
    let Rq := L.Rodrigues ![0, 0, jp.headD 0]
    { jpx := [base.mul ⟨Rq, Rq.mulVec ![d, 0, 0]⟩]
      jvx := []
      J_jpx_jp := [⟨6, 1, fun i _ => if i = 2 then 1 else if i = 4 then d else 0⟩]
      J_jvx_jp := []
      J_jvx_jv := [] }

/-- The call state of the end-to-end example: the object built from
`oneJointArm` with link offset `d` and the identity mount transform, empty
`px`, `J_px_p` requested (and empty), no velocity outputs. -/
def exampleState (d : ℚ) : FKState ℚ where
  robot := Pose2MobileArm.new (oneJointArm smallAngleLib d) Pose3.identity
  px := []
  vx := none
  J_px_p := some []
  J_vx_p := none
  J_vx_v := none

/-- The configuration of the end-to-end example: base pose `(1, 2, 0)`, joint
angle `0`. -/
def exampleConfig : Pose2Vector ℚ := ⟨⟨1, 2, 0⟩, [0]⟩

/-- The call state of the velocity example: as `exampleState 5`, with `vx`
and `J_vx_v` requested; `vx` holds two zero vectors before the call. -/
def velocityState : FKState ℚ :=
  { exampleState 5 with vx := some [0, 0], J_vx_v := some [] }

/-- An arm without joints: its forward kinematics returns no link. -/
def noJointArm {α : Type} [CommRing α] : Arm α where
  dof := 0
  base_pose := Pose3.identity
  kinematics _ _ _ _ _ _ _ := ⟨[], [], [], [], []⟩

/-- The call state of the base-only example: the object built from
`noJointArm` and the identity mount transform, empty `px`, `J_px_p` requested
(and empty), no velocity outputs. -/
def baseOnlyState : FKState ℚ where
  robot := Pose2MobileArm.new noJointArm Pose3.identity
  px := []
  vx := none
  J_px_p := some []
  J_vx_p := none
  J_vx_v := none

section PlanarGroup

variable {α : Type} [CommRing α]

/-- The planar identity `gtsam::Pose2()`. -/
def Pose2.identity : Pose2 α := ⟨0, 0, 0⟩

/-- The planar composition `gtsam::Pose2::operator*`,
`Pose2(r_ * p2.r(), t_ + r_ * p2.t())`, in the coordinates `(x, y, theta)`;
`cos` and `sin` are the library's trigonometric functions.  The library
stores the rotation as a cosine and sine pair, so its `theta()` agrees with
`a.theta + b.theta` up to a full turn. -/
def Pose2.compose (cos sin : α → α) (a b : Pose2 α) : Pose2 α :=
  ⟨a.x + (cos a.theta * b.x - sin a.theta * b.y),
   a.y + (sin a.theta * b.x + cos a.theta * b.y),
   a.theta + b.theta⟩

/-- The planar inverse `gtsam::Pose2::inverse()`,
`Pose2(r_.inverse(), r_.unrotate(Point2(-t_.x(), -t_.y())))`. -/
def Pose2.inverse (cos sin : α → α) (a : Pose2 α) : Pose2 α :=
  ⟨cos a.theta * (-a.x) + sin a.theta * (-a.y),
   -(sin a.theta) * (-a.x) + cos a.theta * (-a.y),
   -a.theta⟩

end PlanarGroup

/-- The call state of the stale-base-pose example: as `exampleState 5`, but
the arm's current base pose is `(identity, (7, 8, 9))` before the call. -/
def staleState : FKState ℚ :=
  { exampleState 5 with
    robot := Pose2MobileArm.new
      ((oneJointArm smallAngleLib 5).updateBasePose ⟨1, ![7, 8, 9]⟩) Pose3.identity }

/-- A mount transform with a rotation: a quarter turn about the z-axis
followed by the offset `(0, 0, 1)`. -/
def quarterTurnMount : Pose3 ℚ :=
  ⟨!![0, -1, 0; 1, 0, 0; 0, 0, 1], ![0, 0, 1]⟩

/-- The call state of the mounted example: as `exampleState 5`, with the
mount transform `quarterTurnMount`. -/
def mountedState : FKState ℚ :=
  { exampleState 5 with
    robot := Pose2MobileArm.new (oneJointArm smallAngleLib 5) quarterTurnMount }

section Basics

variable {α : Type} {β : Type}

theorem resize_length (xs : List β) (n : Nat) (fill : β) :
    (resize xs n fill).length = n := by
  simp [resize]
  omega

theorem setAt_eq_some {xs ys : List β} {i : Nat} {x : β} :
    setAt xs i x = some ys ↔ i < xs.length ∧ ys = xs.set i x := by
  unfold setAt
  split <;> simp_all [eq_comm]

theorem DMatrix.setBlockFixed_eq_some {r c : Nat} {M M' : DMatrix α}
    {i0 j0 : Nat} {B : Matrix (Fin r) (Fin c) α}
    (h : M.setBlockFixed i0 j0 B = some M') :
    (i0 + r ≤ M.rows ∧ j0 + c ≤ M.cols) ∧ M'.rows = M.rows ∧ M'.cols = M.cols ∧
    (∀ (i j : Nat) (hi : i0 ≤ i ∧ i - i0 < r) (hj : j0 ≤ j ∧ j - j0 < c),
      M'.coeff i j = B ⟨i - i0, hi.2⟩ ⟨j - j0, hj.2⟩) ∧
    (∀ i j : Nat, ¬ ((i0 ≤ i ∧ i - i0 < r) ∧ (j0 ≤ j ∧ j - j0 < c)) →
      M'.coeff i j = M.coeff i j) := by
  unfold DMatrix.setBlockFixed at h
  split at h
  · rename_i hb
    simp only [Option.some.injEq] at h
    subst h
    refine ⟨hb, rfl, rfl, ?_, ?_⟩
    · intro i j hi hj
      simp [hi, hj]
    · intro i j hn
      simp [hn]
  · simp at h

theorem DMatrix.setBlock_eq_some {M M' B : DMatrix α} {i0 j0 r c : Nat}
    (h : M.setBlock i0 j0 r c B = some M') :
    ((i0 + r ≤ M.rows ∧ j0 + c ≤ M.cols) ∧ (B.rows = r ∧ B.cols = c)) ∧
    M'.rows = M.rows ∧ M'.cols = M.cols ∧
    (∀ i j : Nat, (i0 ≤ i ∧ i - i0 < r) → (j0 ≤ j ∧ j - j0 < c) →
      M'.coeff i j = B.coeff (i - i0) (j - j0)) ∧
    (∀ i j : Nat, ¬ ((i0 ≤ i ∧ i - i0 < r) ∧ (j0 ≤ j ∧ j - j0 < c)) →
      M'.coeff i j = M.coeff i j) := by
  unfold DMatrix.setBlock at h
  split at h
  · rename_i hb
    simp only [Option.some.injEq] at h
    subst h
    refine ⟨hb, rfl, rfl, ?_, ?_⟩
    · intro i j hi hj
      simp [hi, hj]
    · intro i j hn
      simp [hn]
  · simp at h

theorem DMatrix.setBlockFixed_origin {r c : Nat} {M M' : DMatrix α}
    {B : Matrix (Fin r) (Fin c) α} (h : M.setBlockFixed 0 0 B = some M') :
    (r ≤ M.rows ∧ c ≤ M.cols) ∧ M'.rows = M.rows ∧ M'.cols = M.cols ∧
    (∀ (i : Fin r) (j : Fin c), M'.coeff i j = B i j) ∧
    (∀ i j : Nat, ¬ (i < r ∧ j < c) → M'.coeff i j = M.coeff i j) := by
  obtain ⟨hb, hr, hc, hin, hout⟩ := DMatrix.setBlockFixed_eq_some h
  refine ⟨by simpa using hb, hr, hc, ?_, ?_⟩
  · intro i j
    exact hin i j ⟨Nat.zero_le _, by simp⟩ ⟨Nat.zero_le _, by simp⟩
  · intro i j hn
    exact hout i j (by simpa using hn)

end Basics

/-! ## The loop over the arm links -/

section Loop

variable {α : Type} [CommRing α]

theorem armLinkStep_eq_some {b : BasePoses α} {arm : ArmOutput α} {i : Nat}
    {s s' : FKState α} (h : armLinkStep b arm i s = some s') :
    ∃ pose, arm.jpx[i]? = some pose ∧ i + 1 < s.px.length ∧
      s'.px = s.px.set (i + 1) pose ∧ s'.robot = s.robot ∧ s'.vx = s.vx ∧
      s'.J_vx_p = s.J_vx_p ∧ s'.J_vx_v = s.J_vx_v ∧
      ((s.J_px_p = none ∧ s'.J_px_p = none) ∨
        ∃ J Ji Ji', s.J_px_p = some J ∧ J[i + 1]? = some Ji ∧
          linkJacobian b arm s.robot.arm_.dof i Ji = some Ji' ∧
          s'.J_px_p = some (J.set (i + 1) Ji')) := by
  unfold armLinkStep at h
  simp only [Option.bind_eq_bind, Option.bind_eq_some] at h
  obtain ⟨pose, hpose, px, hpx, J', hJ', hs'⟩ := h
  rw [setAt_eq_some] at hpx
  simp only [Option.some.injEq] at hs'
  subst hs'
  refine ⟨pose, hpose, hpx.1, hpx.2, rfl, rfl, rfl, rfl, ?_⟩
  cases hJ : s.J_px_p with
  | none =>
    left
    rw [hJ] at hJ'
    simp at hJ'
    exact ⟨rfl, hJ'.symm⟩
  | some J =>
    right
    rw [hJ] at hJ'
    simp only [Option.bind_eq_bind, Option.bind_eq_some, Option.some.injEq] at hJ'
    obtain ⟨Ji, hJi, Ji1, hJi1, Ja, hJa, Ji2, hJi2, rfl⟩ := hJ'
    refine ⟨J, Ji, Ji2, rfl, hJi, ?_, rfl⟩
    simp [linkJacobian, hpose, hJi1, hJa, hJi2]

theorem armLinks_eq_some {b : BasePoses α} {arm : ArmOutput α} :
    ∀ (n i : Nat) (s s' : FKState α), armLinks b arm n i s = some s' →
      s'.robot = s.robot ∧ s'.vx = s.vx ∧ s'.J_vx_p = s.J_vx_p ∧
      s'.J_vx_v = s.J_vx_v ∧ s'.px.length = s.px.length ∧
      (∀ j, j ≤ i → s'.px[j]? = s.px[j]?) ∧
      (∀ j, i ≤ j → j < i + n →
        ∃ pose, arm.jpx[j]? = some pose ∧ s'.px[j + 1]? = some pose) ∧
      ((s.J_px_p = none ∧ s'.J_px_p = none) ∨
        ∃ J J', s.J_px_p = some J ∧ s'.J_px_p = some J' ∧
          J'.length = J.length ∧ (∀ j, j ≤ i → J'[j]? = J[j]?) ∧
          (∀ j, i ≤ j → j < i + n → ∃ Ji Ji', J[j + 1]? = some Ji ∧
            linkJacobian b arm s.robot.arm_.dof j Ji = some Ji' ∧
            J'[j + 1]? = some Ji')) := by
  intro n
  induction n with
  | zero =>
    intro i s s' h
    simp only [armLinks, Option.some.injEq] at h
    subst h
    refine ⟨rfl, rfl, rfl, rfl, rfl, fun _ _ => rfl, ?_, ?_⟩
    · intro j h1 h2
      omega
    · cases hJ : s.J_px_p with
      | none => exact Or.inl ⟨rfl, rfl⟩
      | some J =>
        refine Or.inr ⟨J, J, rfl, rfl, rfl, fun _ _ => rfl, ?_⟩
        intro j h1 h2
        omega
  | succ n ih =>
    intro i s s' h
    unfold armLinks at h
    cases hstep : armLinkStep b arm i s with
    | none => simp [hstep] at h
    | some s1 =>
      simp only [hstep] at h
      obtain ⟨hr, hvx, hvp, hvv, hlen, hlow, hhigh, hJ⟩ := ih (i + 1) s1 s' h
      obtain ⟨pose, hpose, hlt, hpx1, hr1, hvx1, hvp1, hvv1, hJ1⟩ :=
        armLinkStep_eq_some hstep
      refine ⟨hr.trans hr1, hvx.trans hvx1, hvp.trans hvp1, hvv.trans hvv1,
        ?_, ?_, ?_, ?_⟩
      · rw [hlen, hpx1, List.length_set]
      · intro j hj
        rw [hlow j (by omega), hpx1, List.getElem?_set_ne (by omega)]
      · intro j h1 h2
        rcases Nat.eq_or_lt_of_le h1 with heq | hlt'
        · subst heq
          refine ⟨pose, hpose, ?_⟩
          rw [hlow (i + 1) (le_refl _), hpx1, List.getElem?_set_self]
          simp [hlt]
        · exact hhigh j (by omega) (by omega)
      · rcases hJ1 with ⟨hn, hn1⟩ | ⟨J, Ji, Ji', hsJ, hJi, hlink, hs1J⟩
        · left
          rcases hJ with ⟨_, hn'⟩ | ⟨J, J', hsJ, _⟩
          · exact ⟨hn, hn'⟩
          · rw [hn1] at hsJ
            cases hsJ
        · right
          rcases hJ with ⟨hn, _⟩ | ⟨J1, J', hs1J', hs'J, hlenJ, hlowJ, hhighJ⟩
          · rw [hs1J] at hn
            cases hn
          · rw [hs1J] at hs1J'
            simp only [Option.some.injEq] at hs1J'
            subst hs1J'
            have hi1 : i + 1 < J.length := by
              rcases Nat.lt_or_ge (i + 1) J.length with h | h
              · exact h
              · rw [List.getElem?_eq_none h] at hJi
                cases hJi
            refine ⟨J, J', hsJ, hs'J, ?_, ?_, ?_⟩
            · rw [hlenJ, List.length_set]
            · intro j hj
              rw [hlowJ j (by omega), List.getElem?_set_ne (by omega)]
            · intro j h1 h2
              rcases Nat.eq_or_lt_of_le h1 with heq | hlt'
              · subst heq
                refine ⟨Ji, Ji', hJi, hlink, ?_⟩
                rw [hlowJ (i + 1) (le_refl _), List.getElem?_set_self]
                simp [hi1]
              · obtain ⟨Jj, Jj', h3, h4, h5⟩ := hhighJ j (by omega) (by omega)
                refine ⟨Jj, Jj', ?_, ?_, h5⟩
                · rw [← h3, List.getElem?_set_ne (by omega)]
                · rw [← hr1]
                  exact h4

end Loop

/-! ## The lift and the mount-offset composer -/

section LiftFacts

variable {α : Type} [CommRing α]

theorem computeBasePose3_fst (L : Rot3Lib α) (q : Pose2 α)
    (J : Option (Matrix63 α)) :
    (computeBasePose3 L q J).1 =
      ⟨L.Rodrigues ![0, 0, q.theta], ![q.x, q.y, 0]⟩ := rfl

theorem computeBasePose3_snd_some (L : Rot3Lib α) (q : Pose2 α)
    (J0 J1 : Matrix63 α) :
    (computeBasePose3 L q (some J0)).2 = (computeBasePose3 L q (some J1)).2 :=
  rfl

theorem computeBasePose3_snd_isSome (L : Rot3Lib α) (q : Pose2 α)
    (J0 : Matrix63 α) :
    (computeBasePose3 L q (some J0)).2 =
      some ((computeBasePose3 L q (some J0)).2.getD 0) := rfl

theorem computeArmBasePose_fst (L : Rot3Lib α) (M : Pose3 α) (q : Pose2 α)
    (J : Option (Matrix63 α)) :
    (computeArmBasePose L M q J).1 = (computeBasePose3 L q none).1.mul M := by
  cases J <;> rfl

theorem computeArmBasePose_snd_some (L : Rot3Lib α) (M : Pose3 α) (q : Pose2 α)
    (J0 : Matrix63 α) :
    (computeArmBasePose L M q (some J0)).2 =
      some (M.inverse.AdjointMap * (computeBasePose3 L q (some 0)).2.getD 0) :=
  rfl

theorem vec3_zero : (![0, 0, 0] : Vector3 α) = 0 := by
  ext i
  fin_cases i <;> rfl

theorem skewSymmetric_zero : skewSymmetric (![0, 0, 0] : Vector3 α) = 0 := by
  ext i j
  fin_cases i <;> fin_cases j <;>
    simp [skewSymmetric, Matrix.vecHead, Matrix.vecTail]

theorem Pose3.mul_identity (a : Pose3 α) : a.mul Pose3.identity = a := by
  simp [Pose3.mul, Pose3.identity]

/-- The Jacobian written by `computeBasePose3`, entry by entry. -/
theorem computeBasePose3_jacobian (L : Rot3Lib α) (q : Pose2 α)
    (J0 : Matrix63 α) :
    (computeBasePose3 L q (some J0)).2 =
      some !![0, 0, L.ExpmapDerivative ![0, 0, q.theta] 0 2;
              0, 0, L.ExpmapDerivative ![0, 0, q.theta] 1 2;
              0, 0, L.ExpmapDerivative ![0, 0, q.theta] 2 2;
              1, 0, 0;
              0, 1, 0;
              0, 0, 0] := by
  simp only [computeBasePose3, Option.map_some', Option.some.injEq]
  ext i j
  fin_cases i <;> fin_cases j <;> rfl

theorem Pose3.AdjointMap_identity_inverse :
    (Pose3.identity : Pose3 α).inverse.AdjointMap = 1 := by
  have h : (Pose3.identity : Pose3 α).inverse = ⟨1, ![0, 0, 0]⟩ := by
    simp [Pose3.inverse, Pose3.identity, vec3_zero]
  rw [h]
  ext i j
  fin_cases i <;> fin_cases j <;>
    simp [Pose3.AdjointMap, skewSymmetric_zero, Matrix.one_apply,
      Fin.coe_ofNat_eq_mod]

/-- Undoing a pure translation `u` applied on the right of a pose without
rotation leaves the translation `-u`. -/
theorem Pose3.inverse_mul_translate (t u : Vector3 α) :
    ((⟨1, t⟩ : Pose3 α).mul ⟨1, u⟩).inverse.mul ⟨1, t⟩ = ⟨1, -u⟩ := by
  simp [Pose3.mul, Pose3.inverse]

/-- The adjoint map of the translation by `-d` along x, applied to a matrix
of the shape the lift's Jacobian has. -/
theorem AdjointMap_translate_mul_lift (d e0 e1 e2 : α) :
    ((⟨1, -![d, 0, 0]⟩ : Pose3 α).AdjointMap *
      (!![0, 0, e0; 0, 0, e1; 0, 0, e2; 1, 0, 0; 0, 1, 0; 0, 0, 0] : Matrix63 α)) =
    (!![0, 0, e0; 0, 0, e1; 0, 0, e2; 1, 0, 0; 0, 1, d * e2;
        0, 0, - (d * e1)] : Matrix63 α) := by
  ext r c
  fin_cases r <;> fin_cases c <;>
    simp [Matrix.mul_apply, Fin.sum_univ_succ, Pose3.AdjointMap, skewSymmetric,
      Matrix.vecHead, Matrix.vecTail, Matrix.one_apply, Fin.coe_ofNat_eq_mod] <;>
    rfl

theorem smallAngleLib_Rodrigues_zero :
    smallAngleLib.Rodrigues ![0, 0, 0] = 1 := by
  simp only [smallAngleLib, skewSymmetric_zero, add_zero]

theorem smallAngleLib_ExpmapDerivative_zero :
    smallAngleLib.ExpmapDerivative ![0, 0, 0] = 1 := by
  simp only [smallAngleLib, skewSymmetric_zero, smul_zero, sub_zero]

end LiftFacts

/-! ## What a call that returns has done -/

section Returns

variable {α : Type} [CommRing α]

theorem baseLink_eq_some {b : BasePoses α} {v : Option (List α)}
    {s s1 : FKState α} (hvx : s.vx = none) (h : baseLink b v s = some s1) :
    0 < s.px.length ∧ s1.px = s.px.set 0 b.veh_base ∧ s1.robot = s.robot ∧
      s1.vx = none ∧ s1.J_vx_p = s.J_vx_p ∧ s1.J_vx_v = s.J_vx_v ∧
      ((s.J_px_p = none ∧ s1.J_px_p = none) ∨
        ∃ J J0 J0', s.J_px_p = some J ∧ J[0]? = some J0 ∧
          J0.setBlockFixed 0 0 b.Hveh_base = some J0' ∧
          s1.J_px_p = some (J.set 0 J0')) := by
  unfold baseLink at h
  simp only [Option.bind_eq_bind, Option.bind_eq_some, hvx] at h
  obtain ⟨px, hpx, J', hJ', hs1⟩ := h
  rw [setAt_eq_some] at hpx
  simp only [Option.some.injEq] at hs1
  subst hs1
  refine ⟨hpx.1, hpx.2, rfl, rfl, rfl, rfl, ?_⟩
  cases hJ : s.J_px_p with
  | none =>
    left
    rw [hJ] at hJ'
    simp at hJ'
    exact ⟨rfl, hJ'.symm⟩
  | some J =>
    right
    rw [hJ] at hJ'
    simp only [Option.bind_eq_bind, Option.bind_eq_some, Option.some.injEq] at hJ'
    obtain ⟨J0, hJ0, J0', hJ0', rfl⟩ := hJ'
    exact ⟨J, J0, J0', rfl, hJ0, hJ0', rfl⟩

theorem forwardKinematics_eq_returns {L : Rot3Lib α} {p : Pose2Vector α}
    {v : Option (List α)} {s s' : FKState α}
    (h : forwardKinematics L p v s = .returns s') :
    v = none ∧ s.vx = none ∧ s.J_vx_p = none ∧ s.J_vx_v = none ∧
      forwardKinematicsBody L p none s = some s' := by
  unfold forwardKinematics at h
  split at h
  · cases h
  · rename_i hv
    split at h
    · cases h
    · rename_i hreq
      have hv' : v = none := by
        cases v with
        | none => rfl
        | some _ => simp at hv
      subst hv'
      simp only [Option.isSome_none, Bool.not_false, Bool.true_and, Bool.or_eq_true,
        not_or, Bool.not_eq_true, Option.not_isSome, Option.isNone_iff_eq_none] at hreq
      refine ⟨rfl, ?_, ?_, ?_, ?_⟩
      · cases hx : s.vx <;> simp_all
      · cases hx : s.J_vx_p <;> simp_all
      · cases hx : s.J_vx_v <;> simp_all
      · cases hb : forwardKinematicsBody L p none s with
        | none => simp [hb] at h
        | some s2 =>
          simp only [hb, Outcome.returns.injEq] at h
          rw [h]

theorem linkJacobian_armLocals {b : BasePoses α} {out : ArmOutput α}
    {s : FKState α} (hJ : s.J_px_p.isSome = true) (dof i : Nat) (Ji : DMatrix α) :
    linkJacobian b (armLocals out s) dof i Ji = linkJacobian b out dof i Ji := by
  simp [linkJacobian, armLocals, hJ]

theorem forwardKinematics_returns_spec {L : Rot3Lib α} {p : Pose2Vector α}
    {v : Option (List α)} {s s' : FKState α} {arm : Arm α} {M : Pose3 α}
    (hs : s.robot = Pose2MobileArm.new arm M)
    (h : forwardKinematics L p v s = .returns s') :
    let b := basePoses L p (allocate s)
    let out := (arm.updateBasePose b.arm_base).forwardKinematics
      p.configuration none false s.J_px_p.isSome false false
    s'.robot = { Pose2MobileArm.new arm M with
      arm_ := arm.updateBasePose b.arm_base } ∧
    s'.vx = none ∧ s'.J_vx_p = none ∧ s'.J_vx_v = none ∧
    s'.px.length = arm.dof + 1 ∧ s'.px[0]? = some b.veh_base ∧
    (∀ i, i < arm.dof →
      ∃ pose, out.jpx[i]? = some pose ∧ s'.px[i + 1]? = some pose) ∧
    ((s.J_px_p = none ∧ s'.J_px_p = none) ∨
      ∃ J', s.J_px_p.isSome = true ∧ s'.J_px_p = some J' ∧
        J'.length = arm.dof + 1 ∧
        (∃ J0', (DMatrix.Zero 6 (arm.dof + 3)).setBlockFixed 0 0 b.Hveh_base
            = some J0' ∧ J'[0]? = some J0') ∧
        ∀ i, i < arm.dof → ∃ Ji',
          linkJacobian b out arm.dof i (DMatrix.Zero 6 (arm.dof + 3)) = some Ji' ∧
          J'[i + 1]? = some Ji') := by
  intro b out
  obtain ⟨rfl, hvx, hvp, hvv, hb⟩ := forwardKinematics_eq_returns h
  unfold forwardKinematicsBody at hb
  simp only [Option.bind_eq_bind, Option.bind_eq_some] at hb
  obtain ⟨s1, hbase, jv, hjv, hloop⟩ := hb
  simp only [velocityTail, Option.some.injEq] at hjv
  subst hjv
  have havx : (allocate s).vx = none := by simp [allocate, hvx]
  obtain ⟨_, hpx1, hr1, hvx1, hvp1, hvv1, hJ1⟩ := baseLink_eq_some havx hbase
  have hvp1' : s1.J_vx_p = none := by rw [hvp1]; simp [allocate, hvp]
  have hvv1' : s1.J_vx_v = none := by rw [hvv1]; simp [allocate, hvv]
  have hr1' : s1.robot = Pose2MobileArm.new arm M := by rw [hr1]; exact hs
  have hJsome : s1.J_px_p.isSome = s.J_px_p.isSome := by
    rcases hJ1 with ⟨ha, h1⟩ | ⟨J, J0, J0', ha, _, _, h1⟩
    · rw [h1]
      cases hsJ : s.J_px_p with
      | none => rfl
      | some _ => simp [allocate, hsJ] at ha
    · rw [h1]
      cases hsJ : s.J_px_p with
      | none => simp [allocate, hsJ] at ha
      | some _ => rfl
  have halen : (allocate s).px.length = arm.dof + 1 := by
    simp only [allocate, resize_length, hs, Pose2MobileArm.new]
  obtain ⟨hr, hvx2, hvp2, hvv2, hlen, hlow, hhigh, hJ⟩ :=
    armLinks_eq_some _ _ _ _ hloop
  simp only at hr hvx2 hvp2 hvv2 hlen hlow hhigh hJ
  rw [hr1'] at hr hhigh hJ hloop
  simp only [Pose2MobileArm.new] at hr hhigh hJ
  refine ⟨?_, hvx2.trans hvx1, hvp2.trans hvp1', hvv2.trans hvv1', ?_, ?_, ?_, ?_⟩
  · rw [hr]
    rfl
  · rw [hlen, hpx1, List.length_set, halen]
  · rw [hlow 0 (Nat.zero_le _), hpx1, List.getElem?_set_self (by omega)]
  · intro i hi
    obtain ⟨pose, h1, h2⟩ := hhigh i (Nat.zero_le _) (by simpa using hi)
    refine ⟨pose, ?_, h2⟩
    rw [← h1]
    simp only [armLocals, hvx1, hvp1', hvv1', hJsome]
    rfl
  · rcases hJ1 with ⟨ha, h1⟩ | ⟨J, J0, J0', ha, hJ0, hJ0', h1⟩
    · left
      rcases hJ with ⟨_, h2⟩ | ⟨J, J', hsJ, _⟩
      · refine ⟨?_, h2⟩
        cases hsJ : s.J_px_p with
        | none => rfl
        | some _ => simp [allocate, hsJ] at ha
      · rw [h1] at hsJ
        cases hsJ
    · right
      rcases hJ with ⟨hn, _⟩ | ⟨J1, J', hs1J, hs'J, hlenJ, hlowJ, hhighJ⟩
      · rw [h1] at hn
        cases hn
      · rw [h1] at hs1J
        simp only [Option.some.injEq] at hs1J
        subst hs1J
        have hsJ : s.J_px_p.isSome = true := by
          cases hsJ : s.J_px_p with
          | none => simp [allocate, hsJ] at ha
          | some _ => rfl
        have hJrep : J = List.replicate (arm.dof + 1) (DMatrix.Zero 6 (arm.dof + 3)) := by
          cases hsJ' : s.J_px_p with
          | none => simp [hsJ'] at hsJ
          | some J₀ =>
            simp only [allocate, hsJ', Option.map_some', Option.some.injEq, hs,
              Pose2MobileArm.new] at ha
            exact ha.symm
        have hJ0eq : J0 = DMatrix.Zero 6 (arm.dof + 3) := by
          rw [hJrep] at hJ0
          simp [List.getElem?_replicate] at hJ0
          exact hJ0.symm
        refine ⟨J', hsJ, hs'J, ?_, ⟨J0', ?_, ?_⟩, ?_⟩
        · rw [hlenJ, List.length_set, hJrep, List.length_replicate]
        · rw [← hJ0eq]
          exact hJ0'
        · rw [hlowJ 0 (Nat.zero_le _), List.getElem?_set_self]
          rw [hJrep, List.length_replicate]
          omega
        · intro i hi
          obtain ⟨Ji, Ji', h3, h4, h5⟩ := hhighJ i (Nat.zero_le _) (by simpa using hi)
          refine ⟨Ji', ?_, h5⟩
          rw [List.getElem?_set_ne (by omega), hJrep] at h3
          have hJi : Ji = DMatrix.Zero 6 (arm.dof + 3) := by
            simp [List.getElem?_replicate] at h3
            exact h3.2.symm
          rw [← hJi, ← h4]
          have hs1J' : s1.J_px_p.isSome = true := by rw [hJsome]; exact hsJ
          rw [linkJacobian_armLocals (by simpa using hs1J')]
          simp only [hvx1, hvp1', hvv1', hJsome]
          rfl

theorem allocate_J_px_p_isSome (s : FKState α) :
    (allocate s).J_px_p.isSome = s.J_px_p.isSome := by
  cases h : s.J_px_p <;> simp [allocate, h]

theorem basePoses_allocate_requested {L : Rot3Lib α} {p : Pose2Vector α}
    {s : FKState α} {arm : Arm α} {M : Pose3 α}
    (hs : s.robot = Pose2MobileArm.new arm M) (hJ : s.J_px_p.isSome = true) :
    basePoses L p (allocate s) =
      ⟨(computeBasePose3 L p.pose (some 0)).1,
       (computeArmBasePose L M p.pose (some 0)).1,
       (computeBasePose3 L p.pose (some 0)).2.getD 0,
       (computeArmBasePose L M p.pose (some 0)).2.getD 0⟩ := by
  have h1 : (allocate s).J_px_p.isSome = true := by
    rw [allocate_J_px_p_isSome]; exact hJ
  have h2 : (allocate s).robot.base_T_arm_ = M := by
    simp [allocate, hs, Pose2MobileArm.new]
  unfold basePoses
  simp only [h1, h2, Bool.true_or, if_true]

theorem basePoses_allocate_poses {L : Rot3Lib α} {p : Pose2Vector α}
    {s : FKState α} {arm : Arm α} {M : Pose3 α}
    (hs : s.robot = Pose2MobileArm.new arm M) :
    (basePoses L p (allocate s)).veh_base = (computeBasePose3 L p.pose none).1 ∧
    (basePoses L p (allocate s)).arm_base =
      (computeArmBasePose L M p.pose none).1 := by
  have h2 : (allocate s).robot.base_T_arm_ = M := by
    simp [allocate, hs, Pose2MobileArm.new]
  unfold basePoses
  split
  · refine ⟨rfl, ?_⟩
    rw [h2]
    exact (computeArmBasePose_fst L M p.pose (some 0)).trans
      (computeArmBasePose_fst L M p.pose none).symm
  · refine ⟨rfl, ?_⟩
    rw [h2]

theorem getElem?_of_lt {β : Type} (xs : List β) {i : Nat} (h : i < xs.length) :
    ∃ x, xs[i]? = some x ∧ x ∈ xs :=
  ⟨xs[i], List.getElem?_eq_getElem h, List.getElem_mem h⟩

theorem linkJacobian_shape {b : BasePoses α} {arm : ArmOutput α} {dof i : Nat}
    {Ji Ji' : DMatrix α} (h : linkJacobian b arm dof i Ji = some Ji') :
    Ji'.rows = Ji.rows ∧ Ji'.cols = Ji.cols := by
  unfold linkJacobian at h
  simp only [Option.bind_eq_bind, Option.bind_eq_some] at h
  obtain ⟨pose, -, Ji1, h1, Ja, -, h2⟩ := h
  obtain ⟨-, hr1, hc1, -, -⟩ := DMatrix.setBlockFixed_origin h1
  obtain ⟨-, hr2, hc2, -, -⟩ := DMatrix.setBlock_eq_some h2
  exact ⟨hr2.trans hr1, hc2.trans hc1⟩

theorem armLinkStep_isSome (b : BasePoses α) (arm : ArmOutput α) (i : Nat)
    (s : FKState α) (hpx : i + 1 < s.px.length) (hjpx : i < arm.jpx.length)
    (hJ : ∀ J, s.J_px_p = some J → i + 1 < J.length ∧
      (∀ Ji ∈ J, Ji.rows = 6 ∧ Ji.cols = s.robot.arm_.dof + 3) ∧
      i < arm.J_jpx_jp.length ∧
      ∀ Ja ∈ arm.J_jpx_jp, Ja.rows = 6 ∧ Ja.cols = s.robot.arm_.dof) :
    ∃ s', armLinkStep b arm i s = some s' := by
  obtain ⟨pose, hpose, -⟩ := getElem?_of_lt arm.jpx hjpx
  unfold armLinkStep
  simp only [Option.bind_eq_bind, hpose, Option.some_bind, setAt, hpx, if_true]
  cases hsJ : s.J_px_p with
  | none => exact ⟨_, rfl⟩
  | some J =>
    obtain ⟨h1, hshape, h2, hshapeA⟩ := hJ J hsJ
    obtain ⟨Ji, hJi, hmem⟩ := getElem?_of_lt J h1
    obtain ⟨Ja, hJa, hmemA⟩ := getElem?_of_lt arm.J_jpx_jp h2
    obtain ⟨hr, hc⟩ := hshape Ji hmem
    obtain ⟨hra, hca⟩ := hshapeA Ja hmemA
    have h3 : 3 + s.robot.arm_.dof ≤ s.robot.arm_.dof + 3 := by omega
    simp only [Option.bind_eq_bind, hJi, Option.some_bind, hJa, DMatrix.setBlockFixed,
      DMatrix.setBlock, hr, hc, hra, hca]
    simp [h3]

theorem armLinks_isSome {b : BasePoses α} {arm : ArmOutput α} :
    ∀ (n i : Nat) (s : FKState α), i + n < s.px.length →
      i + n ≤ arm.jpx.length →
      (∀ J, s.J_px_p = some J → i + n < J.length ∧
        (∀ Ji ∈ J, Ji.rows = 6 ∧ Ji.cols = s.robot.arm_.dof + 3) ∧
        i + n ≤ arm.J_jpx_jp.length ∧
        ∀ Ja ∈ arm.J_jpx_jp, Ja.rows = 6 ∧ Ja.cols = s.robot.arm_.dof) →
      ∃ s', armLinks b arm n i s = some s' := by
  intro n
  induction n with
  | zero =>
    intro i s _ _ _
    exact ⟨s, rfl⟩
  | succ n ih =>
    intro i s hpx hjpx hJ
    obtain ⟨s1, hstep⟩ := armLinkStep_isSome b arm i s
      (by omega) (by omega) (by
        intro J hsJ
        obtain ⟨h1, h2, h3, h4⟩ := hJ J hsJ
        exact ⟨by omega, h2, by omega, h4⟩)
    obtain ⟨pose, -, -, hpx1, hr1, -, -, -, hJ1⟩ := armLinkStep_eq_some hstep
    unfold armLinks
    simp only [hstep]
    apply ih (i + 1) s1
    · rw [hpx1, List.length_set]
      omega
    · omega
    · intro J1 hs1J
      rcases hJ1 with ⟨-, hn⟩ | ⟨J, Ji, Ji', hsJ, hJi, hlink, hs1J'⟩
      · rw [hn] at hs1J
        cases hs1J
      · rw [hs1J'] at hs1J
        simp only [Option.some.injEq] at hs1J
        subst hs1J
        obtain ⟨h1, h2, h3, h4⟩ := hJ J hsJ
        rw [hr1]
        refine ⟨by rw [List.length_set]; omega, ?_, by omega, h4⟩
        intro M hM
        rcases List.mem_or_eq_of_mem_set hM with hM | hM
        · exact h2 M hM
        · subst hM
          obtain ⟨hr, hc⟩ := linkJacobian_shape hlink
          have hmem : Ji ∈ J := List.mem_iff_getElem?.mpr ⟨_, hJi⟩
          obtain ⟨hr', hc'⟩ := h2 Ji hmem
          exact ⟨hr.trans hr', hc.trans hc'⟩

/-- A call without velocity input and without velocity outputs returns as
soon as the arm hands back at least `N` link poses and, when `J_px_p` is
requested, at least `N` Jacobians of shape `6 x N`. -/
theorem forwardKinematics_returns (L : Rot3Lib α) (arm : Arm α) (M : Pose3 α)
    (p : Pose2Vector α) (s : FKState α)
    (hs : s.robot = Pose2MobileArm.new arm M)
    (hvx : s.vx = none) (hvp : s.J_vx_p = none) (hvv : s.J_vx_v = none)
    (hjpx : arm.dof ≤ ((arm.updateBasePose
      (computeArmBasePose L M p.pose none).1).forwardKinematics p.configuration
        none false s.J_px_p.isSome false false).jpx.length)
    (hJ : s.J_px_p.isSome = true →
      arm.dof ≤ ((arm.updateBasePose
        (computeArmBasePose L M p.pose none).1).forwardKinematics p.configuration
          none false true false false).J_jpx_jp.length ∧
      ∀ Ja ∈ ((arm.updateBasePose
        (computeArmBasePose L M p.pose none).1).forwardKinematics p.configuration
          none false true false false).J_jpx_jp, Ja.rows = 6 ∧ Ja.cols = arm.dof) :
    ∃ s', forwardKinematics L p none s = .returns s' := by
  obtain ⟨hveh, harmb⟩ := basePoses_allocate_poses (L := L) (p := p) hs
  have hrobot : (allocate s).robot = Pose2MobileArm.new arm M := by
    simp [allocate, hs]
  have hlen : (allocate s).px.length = arm.dof + 1 := by
    simp only [allocate, resize_length, hs, Pose2MobileArm.new]
  -- the base link
  have hbase : ∃ s1, baseLink (basePoses L p (allocate s)) none (allocate s) = some s1 := by
    unfold baseLink
    have h0 : 0 < (allocate s).px.length := by omega
    have hvx' : (allocate s).vx = none := by simp [allocate, hvx]
    simp only [Option.bind_eq_bind, setAt, h0, if_true, Option.some_bind, hvx']
    cases hsJ : s.J_px_p with
    | none =>
      have : (allocate s).J_px_p = none := by simp [allocate, hsJ]
      simp [this]
    | some J =>
      have : (allocate s).J_px_p = some (List.replicate (arm.dof + 1)
          (DMatrix.Zero 6 (arm.dof + 3))) := by
        simp [allocate, hsJ, hs, Pose2MobileArm.new]
      simp [this, DMatrix.setBlockFixed, DMatrix.Zero]
  obtain ⟨s1, hs1⟩ := hbase
  have havx : (allocate s).vx = none := by simp [allocate, hvx]
  obtain ⟨_, hpx1, hr1, hvx1, hvp1, hvv1, hJ1⟩ := baseLink_eq_some havx hs1
  have hvp1' : s1.J_vx_p = none := by rw [hvp1]; simp [allocate, hvp]
  have hvv1' : s1.J_vx_v = none := by rw [hvv1]; simp [allocate, hvv]
  have hr1' : s1.robot = Pose2MobileArm.new arm M := by rw [hr1]; exact hrobot
  have hJsome : s1.J_px_p.isSome = s.J_px_p.isSome := by
    rcases hJ1 with ⟨ha, h1⟩ | ⟨J, J0, J0', ha, _, _, h1⟩
    · rw [h1]
      cases hsJ : s.J_px_p with
      | none => rfl
      | some _ => simp [allocate, hsJ] at ha
    · rw [h1]
      cases hsJ : s.J_px_p with
      | none => simp [allocate, hsJ] at ha
      | some _ => rfl
  have hbody : ∃ s', forwardKinematicsBody L p none s = some s' := by
    unfold forwardKinematicsBody
    simp only [Option.bind_eq_bind, hs1, Option.some_bind, velocityTail]
    apply armLinks_isSome
    · simp only [hpx1, List.length_set, hlen, hr1', Pose2MobileArm.new, Arm.updateBasePose]
      omega
    · simp only [armLocals, hr1', Pose2MobileArm.new, harmb, hvx1, hvp1', hvv1', hJsome,
        Option.isSome_none]
      simpa [Arm.updateBasePose] using hjpx
    · intro J hsJ
      simp only at hsJ
      have hsome : s.J_px_p.isSome = true := by rw [← hJsome, hsJ]; rfl
      obtain ⟨hJa, hJb⟩ := hJ hsome
      rcases hJ1 with ⟨-, hn⟩ | ⟨J₀, J0, J0', ha, hJ0, hset, h1⟩
      · rw [hn] at hsJ
        cases hsJ
      · rw [h1] at hsJ
        simp only [Option.some.injEq] at hsJ
        subst hsJ
        have hJrep : J₀ = List.replicate (arm.dof + 1) (DMatrix.Zero 6 (arm.dof + 3)) := by
          cases hsJ' : s.J_px_p with
          | none => simp [hsJ'] at hsome
          | some J₁ =>
            simp only [allocate, hsJ', Option.map_some', Option.some.injEq, hs,
              Pose2MobileArm.new] at ha
            exact ha.symm
        have hJ0eq : J0 = DMatrix.Zero 6 (arm.dof + 3) := by
          rw [hJrep] at hJ0
          simp [List.getElem?_replicate] at hJ0
          exact hJ0.symm
        obtain ⟨-, hr0, hc0, -, -⟩ := DMatrix.setBlockFixed_origin hset
        simp only [hr1', Pose2MobileArm.new, Arm.updateBasePose, armLocals, hvx1, hvp1',
          hvv1', h1, Option.isSome_some, if_true, Option.isSome_none, harmb]
        refine ⟨?_, ?_, by simpa using hJa, hJb⟩
        · rw [List.length_set, hJrep, List.length_replicate]
          omega
        · intro Ji hmem
          rcases List.mem_or_eq_of_mem_set hmem with hm | hm
          · rw [hJrep] at hm
            rw [(List.mem_replicate.mp hm).2]
            exact ⟨rfl, rfl⟩
          · rw [hm, hr0, hc0, hJ0eq]
            exact ⟨rfl, rfl⟩
  obtain ⟨s', hs'⟩ := hbody
  refine ⟨s', ?_⟩
  unfold forwardKinematics
  simp [hvx, hvp, hvv, hs']

end Returns

/-! ## The claims -/

section Claims

variable {α : Type} [CommRing α]

theorem link_jacobian_blocks_aux (L : Rot3Lib α) (arm : Arm α)
    (M : Pose3 α) (p : Pose2Vector α) (s s' : FKState α) (H₀ : Matrix63 α)
    (arm_base : Pose3 α) (Harm_base : Matrix63 α) (i : Nat)
    (hs : s.robot = Pose2MobileArm.new arm M)
    (hJ : s.J_px_p.isSome = true)
    (hret : forwardKinematics L p none s = .returns s')
    (hab : computeArmBasePose L M p.pose (some H₀) = (arm_base, some Harm_base))
    (hi : i < arm.dof) :
    ∃ J Ji armjpx_i Jarm_i,
      s'.J_px_p = some J ∧ J[i + 1]? = some Ji ∧
      ((arm.updateBasePose arm_base).forwardKinematics p.configuration none
        false true false false).jpx[i]? = some armjpx_i ∧
      ((arm.updateBasePose arm_base).forwardKinematics p.configuration none
        false true false false).J_jpx_jp[i]? = some Jarm_i ∧
      (∀ (r : Fin 6) (c : Fin 3), Ji.coeff r c =
        ((armjpx_i.inverse.mul arm_base).AdjointMap * Harm_base) r c) ∧
      (∀ r c : Nat, r < 6 → c < arm.dof →
        Ji.coeff r (3 + c) = Jarm_i.coeff r c) := by
  have hab1 : (computeArmBasePose L M p.pose (some 0)).1 = arm_base :=
    congrArg Prod.fst hab
  have hab2 : (computeArmBasePose L M p.pose (some 0)).2.getD 0 = Harm_base := by
    have := congrArg Prod.snd hab
    simp only at this
    change (computeArmBasePose L M p.pose (some H₀)).2.getD 0 = Harm_base
    rw [this]
    rfl
  have hspec := forwardKinematics_returns_spec hs hret
  simp only [basePoses_allocate_requested hs hJ, hJ, hab1, hab2] at hspec
  obtain ⟨-, -, -, -, -, -, -, hJs⟩ := hspec
  rcases hJs with ⟨hn, -⟩ | ⟨J', -, hJ', -, -, hlink⟩
  · rw [hn] at hJ
    cases hJ
  · obtain ⟨Ji', hlj, hget⟩ := hlink i hi
    unfold linkJacobian at hlj
    simp only [Option.bind_eq_bind, Option.bind_eq_some] at hlj
    obtain ⟨pose, hp, Ji1, h1, Ja, ha, h2⟩ := hlj
    obtain ⟨-, -, -, hin1, -⟩ := DMatrix.setBlockFixed_origin h1
    obtain ⟨-, -, -, hin2, hout2⟩ := DMatrix.setBlock_eq_some h2
    refine ⟨J', Ji', pose, Ja, hJ', hget, hp, ha, ?_, ?_⟩
    · intro r c
      rw [hout2 r c (by omega)]
      exact hin1 r c
    · intro r c hr hc
      have := hin2 r (3 + c) (by omega) (by omega)
      simpa using this

/-- C1: for an arm with `N` joints and `i < N`, a call that returns with
`J_px_p` requested has written into `J_px_p[i+1]` the product
`AdjointMap(armjpx[i]^-1 * arm_base) * Harm_base` in columns 0..2 and the
arm's own Jacobian `Jarm_jpx_jp[i]` in columns 3..3+N, where `arm_base`,
`Harm_base` come from `computeArmBasePose(p.pose())` and `armjpx`,
`Jarm_jpx_jp` from the arm's forward kinematics. -/
theorem forwardKinematics_link_jacobian_blocks (L : Rot3Lib α) (arm : Arm α)
    (M : Pose3 α) (p : Pose2Vector α) (s s' : FKState α) (H₀ : Matrix63 α)
    (arm_base : Pose3 α) (Harm_base : Matrix63 α) (i : Nat)
    (hs : s.robot = Pose2MobileArm.new arm M)
    (hJ : s.J_px_p.isSome = true)
    (hret : forwardKinematics L p none s = .returns s')
    (hab : computeArmBasePose L M p.pose (some H₀) = (arm_base, some Harm_base))
    (hi : i < arm.dof) :
    ∃ J Ji armjpx_i Jarm_i,
      s'.J_px_p = some J ∧ J[i + 1]? = some Ji ∧
      ((arm.updateBasePose arm_base).forwardKinematics p.configuration none
        false true false false).jpx[i]? = some armjpx_i ∧
      ((arm.updateBasePose arm_base).forwardKinematics p.configuration none
        false true false false).J_jpx_jp[i]? = some Jarm_i ∧
      (∀ (r : Fin 6) (c : Fin 3), Ji.coeff r c =
        ((armjpx_i.inverse.mul arm_base).AdjointMap * Harm_base) r c) ∧
      (∀ r c : Nat, r < 6 → c < arm.dof →
        Ji.coeff r (3 + c) = Jarm_i.coeff r c) :=
  link_jacobian_blocks_aux L arm M p s s' H₀ arm_base Harm_base i hs hJ hret hab hi

/-- Witness for C1: the end-to-end example (one joint, link offset 5,
identity mount, base pose (1, 2, 0)) returns, and link 1 has the two blocks. -/
theorem forwardKinematics_link_jacobian_blocks_witness :
    ∃ s', forwardKinematics smallAngleLib exampleConfig none (exampleState 5)
        = .returns s' ∧
      ∃ J Ji armjpx_i Jarm_i,
        s'.J_px_p = some J ∧ J[0 + 1]? = some Ji ∧
        (((oneJointArm smallAngleLib 5).updateBasePose
          (computeArmBasePose smallAngleLib Pose3.identity exampleConfig.pose
            (some 0)).1).forwardKinematics exampleConfig.configuration none
            false true false false).jpx[0]? = some armjpx_i ∧
        (((oneJointArm smallAngleLib 5).updateBasePose
          (computeArmBasePose smallAngleLib Pose3.identity exampleConfig.pose
            (some 0)).1).forwardKinematics exampleConfig.configuration none
            false true false false).J_jpx_jp[0]? = some Jarm_i ∧
        (∀ (r : Fin 6) (c : Fin 3), Ji.coeff r c =
          ((armjpx_i.inverse.mul
            (computeArmBasePose smallAngleLib Pose3.identity exampleConfig.pose
              (some 0)).1).AdjointMap *
            ((computeArmBasePose smallAngleLib Pose3.identity exampleConfig.pose
              (some 0)).2.getD 0) : Matrix63 ℚ) r c) ∧
        (∀ r c : Nat, r < 6 → c < (oneJointArm smallAngleLib (5 : ℚ)).dof →
          Ji.coeff r (3 + c) = Jarm_i.coeff r c) := by
  obtain ⟨s', h⟩ : ∃ s', forwardKinematics smallAngleLib exampleConfig none
      (exampleState 5) = .returns s' := ⟨_, rfl⟩
  exact ⟨s', h, forwardKinematics_link_jacobian_blocks smallAngleLib
    (oneJointArm smallAngleLib 5) Pose3.identity exampleConfig (exampleState 5)
    s' 0 _ _ 0 rfl rfl h rfl Nat.one_pos⟩

/-- In the end-to-end example the arm of `exampleState d` satisfies the premise
on the joint link: its pose is the arm base pose composed with the pure
translation `(d, 0, 0)`. -/
theorem oneJointArm_link_pose (d : ℚ) (base : Pose3 ℚ) :
    (((oneJointArm smallAngleLib d).updateBasePose base).forwardKinematics
      [0] none false true false false).jpx[0]? =
      some (base.mul ⟨1, ![d, 0, 0]⟩) := by
  simp [Arm.forwardKinematics, Arm.updateBasePose, oneJointArm,
    smallAngleLib_Rodrigues_zero]

theorem example_base_columns_aux (L : Rot3Lib α) (arm : Arm α) (d : α)
    (s s' : FKState α) (H₀ : Matrix63 α) (veh_base : Pose3 α)
    (Hveh_base : Matrix63 α)
    (hRod : L.Rodrigues ![0, 0, 0] = 1)
    (hExp : L.ExpmapDerivative ![0, 0, 0] = 1)
    (hs : s.robot = Pose2MobileArm.new arm Pose3.identity)
    (hdof : arm.dof = 1)
    (hJ : s.J_px_p.isSome = true)
    (harm : ((arm.updateBasePose
        (computeArmBasePose L Pose3.identity ⟨1, 2, 0⟩ none).1).forwardKinematics
          [0] none false true false false).jpx[0]? =
        some ((computeArmBasePose L Pose3.identity ⟨1, 2, 0⟩ none).1.mul
          ⟨1, ![d, 0, 0]⟩))
    (hret : forwardKinematics L ⟨⟨1, 2, 0⟩, [0]⟩ none s = .returns s')
    (hlift : computeBasePose3 L ⟨1, 2, 0⟩ (some H₀) = (veh_base, some Hveh_base)) :
    ∃ J J1, s'.J_px_p = some J ∧ J[1]? = some J1 ∧
      (∀ (r : Fin 6) (c : Fin 3),
        J1.coeff r c = Hveh_base r c + if r = 4 ∧ c = 2 then d else 0) ∧
      ((∀ (r : Fin 6) (c : Fin 3), J1.coeff r c = Hveh_base r c) ↔ d = 0) := by
  have hH : Hveh_base =
      !![0, 0, 0; 0, 0, 0; 0, 0, 1; 1, 0, 0; 0, 1, 0; 0, 0, 0] := by
    have h1 := congrArg Prod.snd hlift
    rw [computeBasePose3_jacobian] at h1
    simp only [Option.some.injEq] at h1
    rw [← h1]
    simp [hExp, Matrix.one_apply]
  have hbase : (computeArmBasePose L Pose3.identity (⟨1, 2, 0⟩ : Pose2 α) none).1 =
      ⟨1, ![1, 2, 0]⟩ := by
    rw [computeArmBasePose_fst, Pose3.mul_identity, computeBasePose3_fst, hRod]
  have hab : computeArmBasePose L Pose3.identity (⟨1, 2, 0⟩ : Pose2 α) (some 0) =
      (⟨1, ![1, 2, 0]⟩, some Hveh_base) := by
    refine Prod.ext ?_ ?_
    · exact (computeArmBasePose_fst _ _ _ _).trans
        ((computeArmBasePose_fst _ _ _ _).symm.trans hbase)
    · rw [computeArmBasePose_snd_some, Pose3.AdjointMap_identity_inverse, Matrix.one_mul]
      have h1 := congrArg Prod.snd hlift
      simp only at h1
      rw [computeBasePose3_snd_some L _ 0 H₀, h1]
      rfl
  obtain ⟨J, J1, a, Ja, hJ', hJ1, ha, -, hcols, -⟩ :=
    link_jacobian_blocks_aux L arm Pose3.identity ⟨⟨1, 2, 0⟩, [0]⟩ s s' 0 _ _ 0
      hs hJ hret hab (by omega)
  rw [hbase] at harm
  simp only at ha
  rw [harm] at ha
  simp only [Option.some.injEq] at ha
  subst ha
  rw [Pose3.inverse_mul_translate, hH, AdjointMap_translate_mul_lift] at hcols
  have hentries : ∀ (r : Fin 6) (c : Fin 3),
      J1.coeff r c = Hveh_base r c + if r = 4 ∧ c = 2 then d else 0 := by
    intro r c
    rw [hcols, hH]
    fin_cases r <;> fin_cases c <;> simp <;> rfl
  refine ⟨J, J1, hJ', hJ1, hentries, ?_⟩
  constructor
  · intro hall
    have h1 := hentries 4 2
    rw [hall 4 2] at h1
    simpa using h1
  · intro hd r c
    rw [hentries, hd]
    simp
/-- C2, as amended: in the end-to-end case (base pose (1, 2, 0), identity
mount, one joint whose link pose is the arm base pose composed with the
translation `(d, 0, 0)`; the library returns the identity at the zero rotation
vector) the base-parameter columns of `J_px_p[1]` are the lift's Jacobian plus
`d` at row 4, column 2; they equal the lift's Jacobian exactly when `d = 0`. -/
theorem forwardKinematics_example_base_columns (L : Rot3Lib α) (arm : Arm α)
    (d : α) (s s' : FKState α) (H₀ : Matrix63 α) (veh_base : Pose3 α)
    (Hveh_base : Matrix63 α)
    (hRod : L.Rodrigues ![0, 0, 0] = 1)
    (hExp : L.ExpmapDerivative ![0, 0, 0] = 1)
    (hs : s.robot = Pose2MobileArm.new arm Pose3.identity)
    (hdof : arm.dof = 1)
    (hJ : s.J_px_p.isSome = true)
    (harm : ((arm.updateBasePose
        (computeArmBasePose L Pose3.identity ⟨1, 2, 0⟩ none).1).forwardKinematics
          [0] none false true false false).jpx[0]? =
        some ((computeArmBasePose L Pose3.identity ⟨1, 2, 0⟩ none).1.mul
          ⟨1, ![d, 0, 0]⟩))
    (hret : forwardKinematics L ⟨⟨1, 2, 0⟩, [0]⟩ none s = .returns s')
    (hlift : computeBasePose3 L ⟨1, 2, 0⟩ (some H₀) = (veh_base, some Hveh_base)) :
    ∃ J J1, s'.J_px_p = some J ∧ J[1]? = some J1 ∧
      (∀ (r : Fin 6) (c : Fin 3),
        J1.coeff r c = Hveh_base r c + if r = 4 ∧ c = 2 then d else 0) ∧
      ((∀ (r : Fin 6) (c : Fin 3), J1.coeff r c = Hveh_base r c) ↔ d = 0) :=
  example_base_columns_aux L arm d s s' H₀ veh_base Hveh_base hRod hExp hs hdof
    hJ harm hret hlift

/-- Witness for C2 as amended: the example with link offset 3. -/
theorem forwardKinematics_example_base_columns_witness :
    ∃ s', forwardKinematics smallAngleLib ⟨⟨1, 2, 0⟩, [0]⟩ none (exampleState 3)
        = .returns s' ∧
      ∃ J J1, s'.J_px_p = some J ∧ J[1]? = some J1 ∧
        (∀ (r : Fin 6) (c : Fin 3), J1.coeff r c =
          ((computeBasePose3 smallAngleLib ⟨1, 2, 0⟩ (some 0)).2.getD 0) r c +
            if r = 4 ∧ c = 2 then 3 else 0) ∧
        ((∀ (r : Fin 6) (c : Fin 3), J1.coeff r c =
          ((computeBasePose3 smallAngleLib ⟨1, 2, 0⟩ (some 0)).2.getD 0) r c) ↔
            (3 : ℚ) = 0) := by
  obtain ⟨s', h⟩ : ∃ s', forwardKinematics smallAngleLib ⟨⟨1, 2, 0⟩, [0]⟩ none
      (exampleState 3) = .returns s' := ⟨_, rfl⟩
  exact ⟨s', h, forwardKinematics_example_base_columns smallAngleLib
    (oneJointArm smallAngleLib 3) 3 (exampleState 3) s' 0 _ _
    smallAngleLib_Rodrigues_zero smallAngleLib_ExpmapDerivative_zero rfl rfl rfl
    (oneJointArm_link_pose 3 _) h rfl⟩

/-- Counterexample to C2 as stated: with link offset `d = 5` the premises of
the end-to-end case hold, yet entry (4, 2) of the joint link's Jacobian is 5
while the same entry of the lift's Jacobian is 0. -/
theorem example_base_columns_differ :
    ∃ s' J J1 H,
      forwardKinematics smallAngleLib exampleConfig none (exampleState 5)
        = .returns s' ∧
      (exampleState 5).robot =
        Pose2MobileArm.new (oneJointArm smallAngleLib 5) Pose3.identity ∧
      (((oneJointArm smallAngleLib 5).updateBasePose
        (computeArmBasePose smallAngleLib Pose3.identity exampleConfig.pose
          none).1).forwardKinematics exampleConfig.configuration none
          false true false false).jpx =
        [(computeArmBasePose smallAngleLib Pose3.identity exampleConfig.pose
          none).1.mul ⟨1, ![5, 0, 0]⟩] ∧
      s'.J_px_p = some J ∧ J[1]? = some J1 ∧
      (computeBasePose3 smallAngleLib exampleConfig.pose (some 0)).2 = some H ∧
      J1.coeff 4 2 = 5 ∧ H 4 2 = 0 := by
  obtain ⟨s', h⟩ : ∃ s', forwardKinematics smallAngleLib exampleConfig none
      (exampleState 5) = .returns s' := ⟨_, rfl⟩
  obtain ⟨J, J1, hJ, hJ1, hent, -⟩ := example_base_columns_aux smallAngleLib
    (oneJointArm smallAngleLib 5) 5 (exampleState 5) s' 0 _ _
    smallAngleLib_Rodrigues_zero smallAngleLib_ExpmapDerivative_zero rfl rfl rfl
    (oneJointArm_link_pose 5 _) h rfl
  have hH : ((computeBasePose3 smallAngleLib exampleConfig.pose (some 0)).2.getD 0)
      4 2 = 0 := by
    rw [computeBasePose3_jacobian]
    rfl
  refine ⟨s', J, J1, _, h, rfl, ?_, hJ, hJ1, rfl, ?_, hH⟩
  · simp [Arm.forwardKinematics, Arm.updateBasePose, oneJointArm, exampleConfig,
      smallAngleLib_Rodrigues_zero]
  · have h42 := hent 4 2
    change J1.coeff 4 2 = _ at h42
    rw [h42]
    change ((computeBasePose3 smallAngleLib exampleConfig.pose (some 0)).2.getD 0)
      4 2 + _ = 5
    rw [hH]
    simp

/-- C3: a call that returns with `J_px_p` requested leaves `J_px_p[0]` with
the Jacobian of `computeBasePose3(p.pose())` in columns 0..2 and zero in the
joint-angle columns 3..3+N. -/
theorem forwardKinematics_base_link_jacobian (L : Rot3Lib α) (arm : Arm α)
    (M : Pose3 α) (p : Pose2Vector α) (s s' : FKState α) (H₀ : Matrix63 α)
    (veh_base : Pose3 α) (Hveh_base : Matrix63 α)
    (hs : s.robot = Pose2MobileArm.new arm M)
    (hJ : s.J_px_p.isSome = true)
    (hret : forwardKinematics L p none s = .returns s')
    (hvb : computeBasePose3 L p.pose (some H₀) = (veh_base, some Hveh_base)) :
    ∃ J J0, s'.J_px_p = some J ∧ J[0]? = some J0 ∧
      (∀ (r : Fin 6) (c : Fin 3), J0.coeff r c = Hveh_base r c) ∧
      (∀ r c : Nat, r < 6 → c < arm.dof → J0.coeff r (3 + c) = 0) := by
  have hvb2 : (computeBasePose3 L p.pose (some 0)).2.getD 0 = Hveh_base := by
    have := congrArg Prod.snd hvb
    simp only at this
    change (computeBasePose3 L p.pose (some H₀)).2.getD 0 = Hveh_base
    rw [this]
    rfl
  have hspec := forwardKinematics_returns_spec hs hret
  simp only [basePoses_allocate_requested hs hJ, hJ, hvb2] at hspec
  obtain ⟨-, -, -, -, -, -, -, hJs⟩ := hspec
  rcases hJs with ⟨hn, -⟩ | ⟨J', -, hJ', -, ⟨J0', hset, hget⟩, -⟩
  · rw [hn] at hJ
    cases hJ
  · obtain ⟨-, -, -, hin, hout⟩ := DMatrix.setBlockFixed_origin hset
    refine ⟨J', J0', hJ', hget, hin, ?_⟩
    intro r c _ _
    rw [hout r (3 + c) (by omega)]
    rfl

/-- Witness for C3: the end-to-end example returns, and link 0 has the
lift's Jacobian in columns 0..2 and zero in column 3. -/
theorem forwardKinematics_base_link_jacobian_witness :
    ∃ s', forwardKinematics smallAngleLib exampleConfig none (exampleState 5)
        = .returns s' ∧
      ∃ J J0, s'.J_px_p = some J ∧ J[0]? = some J0 ∧
        (∀ (r : Fin 6) (c : Fin 3), J0.coeff r c =
          ((computeBasePose3 smallAngleLib exampleConfig.pose
            (some 0)).2.getD 0) r c) ∧
        (∀ r c : Nat, r < 6 → c < (oneJointArm smallAngleLib (5 : ℚ)).dof →
          J0.coeff r (3 + c) = 0) := by
  obtain ⟨s', h⟩ : ∃ s', forwardKinematics smallAngleLib exampleConfig none
      (exampleState 5) = .returns s' := ⟨_, rfl⟩
  exact ⟨s', h, forwardKinematics_base_link_jacobian smallAngleLib
    (oneJointArm smallAngleLib 5) Pose3.identity exampleConfig (exampleState 5)
    s' 0 _ _ rfl rfl h rfl⟩

/-- C4: a call that returns leaves the link poses in the order base, then
chain: `px[0]` is `computeBasePose3(p.pose())` and, for `i < N`, `px[i+1]` is
the `i`-th link pose of the arm's forward kinematics on `p.configuration()`
after the arm's base pose was set to `computeArmBasePose(p.pose())`. -/
theorem forwardKinematics_link_poses (L : Rot3Lib α) (arm : Arm α)
    (M : Pose3 α) (p : Pose2Vector α) (s s' : FKState α)
    (hs : s.robot = Pose2MobileArm.new arm M)
    (hret : forwardKinematics L p none s = .returns s') :
    s'.px[0]? = some (computeBasePose3 L p.pose none).1 ∧
    ∀ i, i < arm.dof → ∃ armjpx_i,
      ((arm.updateBasePose (computeArmBasePose L M p.pose none).1).forwardKinematics
        p.configuration none false s.J_px_p.isSome false false).jpx[i]?
        = some armjpx_i ∧
      s'.px[i + 1]? = some armjpx_i := by
  have hspec := forwardKinematics_returns_spec hs hret
  obtain ⟨hv, ha⟩ := basePoses_allocate_poses (L := L) (p := p) hs
  simp only [hv, ha] at hspec
  obtain ⟨-, -, -, -, -, h0, hlinks, -⟩ := hspec
  exact ⟨h0, hlinks⟩

/-- Witness for C4: in the end-to-end example with link offset 5 the call
returns `px[0] = (identity, (1, 2, 0))` and `px[1] = (identity, (6, 2, 0))`. -/
theorem forwardKinematics_link_poses_witness :
    ∃ s', forwardKinematics smallAngleLib exampleConfig none (exampleState 5)
        = .returns s' ∧
      s'.px[0]? = some ⟨1, ![1, 2, 0]⟩ ∧ s'.px[1]? = some ⟨1, ![1 + 5, 2, 0]⟩ := by
  obtain ⟨s', h⟩ : ∃ s', forwardKinematics smallAngleLib exampleConfig none
      (exampleState 5) = .returns s' := ⟨_, rfl⟩
  obtain ⟨h0, hl⟩ := forwardKinematics_link_poses smallAngleLib
    (oneJointArm smallAngleLib 5) Pose3.identity exampleConfig (exampleState 5)
    s' rfl h
  obtain ⟨a, ha, hpx⟩ := hl 0 Nat.one_pos
  have hbase : (computeArmBasePose smallAngleLib Pose3.identity exampleConfig.pose
      none).1 = ⟨1, ![1, 2, 0]⟩ := by
    rw [computeArmBasePose_fst, Pose3.mul_identity, computeBasePose3_fst]
    simp [exampleConfig, smallAngleLib_Rodrigues_zero]
  refine ⟨s', h, ?_, ?_⟩
  · rw [h0, computeBasePose3_fst]
    simp [exampleConfig, smallAngleLib_Rodrigues_zero]
  · rw [hpx, ← ha, hbase]
    simp [Arm.forwardKinematics, Arm.updateBasePose, oneJointArm, exampleConfig,
      smallAngleLib_Rodrigues_zero, Pose3.mul]

/-- C5: a call that returns leaves `px` with exactly `N + 1` entries and, when
`J_px_p` is requested, `J_px_p` with exactly `N + 1` matrices, each of shape
`6 x (3 + N)`, whatever `px` and `J_px_p` held before; the constructor sets
`dof = N + 3` and `nr_links = N + 1`. -/
theorem forwardKinematics_output_sizes (L : Rot3Lib α) (arm : Arm α)
    (M : Pose3 α) (p : Pose2Vector α) (s s' : FKState α)
    (hs : s.robot = Pose2MobileArm.new arm M)
    (hret : forwardKinematics L p none s = .returns s') :
    (Pose2MobileArm.new arm M).dof_ = arm.dof + 3 ∧
    (Pose2MobileArm.new arm M).nr_links_ = arm.dof + 1 ∧
    s'.px.length = arm.dof + 1 ∧
    (s.J_px_p.isSome = true → ∃ J, s'.J_px_p = some J ∧
      J.length = arm.dof + 1 ∧
      ∀ Ji ∈ J, Ji.rows = 6 ∧ Ji.cols = 3 + arm.dof) := by
  have hspec := forwardKinematics_returns_spec hs hret
  obtain ⟨-, -, -, -, hlen, -, -, hJs⟩ := hspec
  refine ⟨rfl, rfl, hlen, ?_⟩
  intro hJ
  rcases hJs with ⟨hn, -⟩ | ⟨J', -, hJ', hlenJ, ⟨J0', hset, hget⟩, hlink⟩
  · rw [hn] at hJ
    cases hJ
  · refine ⟨J', hJ', hlenJ, ?_⟩
    intro Ji hmem
    obtain ⟨k, hk⟩ := List.mem_iff_getElem?.mp hmem
    have hklt : k < J'.length := by
      rcases Nat.lt_or_ge k J'.length with h | h
      · exact h
      · rw [List.getElem?_eq_none h] at hk
        cases hk
    cases k with
    | zero =>
      rw [hget] at hk
      simp only [Option.some.injEq] at hk
      subst hk
      obtain ⟨-, hr, hc, -, -⟩ := DMatrix.setBlockFixed_origin hset
      rw [hr, hc]
      exact ⟨rfl, Nat.add_comm _ _⟩
    | succ i =>
      obtain ⟨Ji', hlj, hgi⟩ := hlink i (by omega)
      rw [hgi] at hk
      simp only [Option.some.injEq] at hk
      subst hk
      unfold linkJacobian at hlj
      simp only [Option.bind_eq_bind, Option.bind_eq_some] at hlj
      obtain ⟨pose, -, Ji1, h1, Ja, -, h2⟩ := hlj
      obtain ⟨-, hr1, hc1, -, -⟩ := DMatrix.setBlockFixed_origin h1
      obtain ⟨-, hr2, hc2, -, -⟩ := DMatrix.setBlock_eq_some h2
      rw [hr2, hc2, hr1, hc1]
      exact ⟨rfl, Nat.add_comm _ _⟩

/-- Witness for C5: the end-to-end example, called with empty `px` and
`J_px_p`, returns two poses and two `6 x 4` matrices. -/
theorem forwardKinematics_output_sizes_witness :
    ∃ s', forwardKinematics smallAngleLib exampleConfig none (exampleState 5)
        = .returns s' ∧
      s'.px.length = 1 + 1 ∧
      ∃ J, s'.J_px_p = some J ∧ J.length = 1 + 1 ∧
        ∀ Ji ∈ J, Ji.rows = 6 ∧ Ji.cols = 3 + 1 := by
  obtain ⟨s', h⟩ : ∃ s', forwardKinematics smallAngleLib exampleConfig none
      (exampleState 5) = .returns s' := ⟨_, rfl⟩
  obtain ⟨-, -, hpx, hJ⟩ := forwardKinematics_output_sizes smallAngleLib
    (oneJointArm smallAngleLib 5) Pose3.identity exampleConfig (exampleState 5)
    s' rfl h
  exact ⟨s', h, hpx, hJ rfl⟩

/-- C6: without a velocity input, requesting any of `vx`, `J_vx_p`, `J_vx_v`
makes `forwardKinematics` throw the invalid-request error, for every arm and
configuration; the call does not return. -/
theorem forwardKinematics_invalid_request (L : Rot3Lib α) (p : Pose2Vector α)
    (s : FKState α)
    (hreq : s.vx.isSome = true ∨ s.J_vx_p.isSome = true ∨ s.J_vx_v.isSome = true) :
    (∃ s1, forwardKinematics L p none s = .throws .invalidRequest s1) ∧
    ∀ s', forwardKinematics L p none s ≠ .returns s' := by
  have h : forwardKinematics L p none s = .throws .invalidRequest s := by
    unfold forwardKinematics
    rcases hreq with h | h | h <;> simp [h]
  exact ⟨⟨s, h⟩, fun s' hs' => by rw [h] at hs'; cases hs'⟩

/-- Witness for C6: the one-joint example with `vx` requested and no
velocity input. -/
theorem forwardKinematics_invalid_request_witness :
    (velocityState.vx.isSome = true ∨ velocityState.J_vx_p.isSome = true ∨
      velocityState.J_vx_v.isSome = true) ∧
    (∃ s1, forwardKinematics smallAngleLib exampleConfig none velocityState
      = .throws .invalidRequest s1) ∧
    ∀ s', forwardKinematics smallAngleLib exampleConfig none velocityState
      ≠ .returns s' :=
  ⟨Or.inl rfl, forwardKinematics_invalid_request smallAngleLib exampleConfig
    velocityState (Or.inl rfl)⟩

/-- C7: whenever a configuration-space velocity `v` is supplied,
`forwardKinematics` throws the unimplemented-path error, for every arm,
configuration and combination of requested outputs. -/
theorem forwardKinematics_velocity_not_implemented (L : Rot3Lib α)
    (p : Pose2Vector α) (v : List α) (s : FKState α) :
    ∃ s1, forwardKinematics L p (some v) s = .throws .notImplemented s1 :=
  ⟨s, by simp [forwardKinematics]⟩

/-- What lines 66-74 do when they run with a velocity `v` and `vx`
requested. -/
theorem baseLink_velocity {b : BasePoses α} {vv : List α} {s s1 : FKState α}
    {vx : List (Vector3 α)} (hvx : s.vx = some vx)
    (h : baseLink b (some vv) s = some s1) :
    ∃ v0 v1 vx', vv[0]? = some v0 ∧ vv[1]? = some v1 ∧ s1.vx = some vx' ∧
      vx'[0]? = some ![v0, v1, 0] ∧
      ∀ Jv, s.J_vx_v = some Jv → ∃ Jv' J0', s1.J_vx_v = some Jv' ∧
        Jv'[0]? = some J0' ∧ J0'.coeff 0 0 = 1 ∧ J0'.coeff 0 1 = 0 ∧
        J0'.coeff 1 0 = 0 ∧ J0'.coeff 1 1 = 1 := by
  unfold baseLink at h
  simp only [Option.bind_eq_bind, Option.bind_eq_some, hvx] at h
  obtain ⟨px, -, J', -, vv', hvv, v0, hv0, v1, hv1, vx', hvx', Jv', hJv', hs1⟩ := h
  simp only [Option.some.injEq] at hvv hs1
  subst hvv hs1
  rw [setAt_eq_some] at hvx'
  refine ⟨v0, v1, vx', hv0, hv1, rfl, ?_, ?_⟩
  · rw [hvx'.2, List.getElem?_set_self hvx'.1]
  · intro Jv hJv
    rw [hJv] at hJv'
    simp only [Option.bind_eq_bind, Option.bind_eq_some, Option.some.injEq] at hJv'
    obtain ⟨J0, hJ0, J0', hset, rfl⟩ := hJv'
    have hlt : 0 < Jv.length := by
      rcases Nat.lt_or_ge 0 Jv.length with h | h
      · exact h
      · rw [List.getElem?_eq_none h] at hJ0
        cases hJ0
    obtain ⟨-, -, -, hin, -⟩ := DMatrix.setBlockFixed_origin hset
    refine ⟨_, J0', rfl, List.getElem?_set_self hlt, ?_, ?_, ?_, ?_⟩
    · simpa using hin 0 0
    · simpa using hin 0 1
    · simpa using hin 1 0
    · simpa using hin 1 1

/-- C8, as amended: when a velocity `v` is supplied, `forwardKinematics`
throws the unimplemented-path error and leaves every output, `vx` and
`J_vx_v` included, as it was; the base link's contribution is not computed.
The code of lines 66-74 is never reached with a velocity; run on its own with
`v` and `vx` it sets `vx[0] = (v[0], v[1], 0)` and, when `J_vx_v` is
requested, the 2x2 identity in rows 0..1, columns 0..1 of its link-0 entry. -/
theorem forwardKinematics_velocity_base_link (L : Rot3Lib α)
    (p : Pose2Vector α) (v : List α) :
    (∀ s : FKState α, forwardKinematics L p (some v) s = .throws .notImplemented s) ∧
    ∀ (b : BasePoses α) (s s1 : FKState α) (vx : List (Vector3 α)),
      s.vx = some vx → baseLink b (some v) s = some s1 →
      ∃ v0 v1 vx', v[0]? = some v0 ∧ v[1]? = some v1 ∧ s1.vx = some vx' ∧
        vx'[0]? = some ![v0, v1, 0] ∧
        ∀ Jv, s.J_vx_v = some Jv → ∃ Jv' J0', s1.J_vx_v = some Jv' ∧
          Jv'[0]? = some J0' ∧ J0'.coeff 0 0 = 1 ∧ J0'.coeff 0 1 = 0 ∧
          J0'.coeff 1 0 = 0 ∧ J0'.coeff 1 1 = 1 :=
  ⟨fun s => by simp [forwardKinematics],
   fun _ _ _ _ hvx h => baseLink_velocity hvx h⟩

/-- Witness for C8 as amended: the one-joint example with velocity
`(3, 4, 0, 0)` and `vx`, `J_vx_v` requested. -/
theorem forwardKinematics_velocity_base_link_witness :
    forwardKinematics smallAngleLib exampleConfig (some [3, 4, 0, 0]) velocityState
      = .throws .notImplemented velocityState ∧
    ∃ s1, baseLink (basePoses smallAngleLib exampleConfig (allocate velocityState))
        (some [3, 4, 0, 0]) (allocate velocityState) = some s1 ∧
      ∃ v0 v1 vx', ([3, 4, 0, 0] : List ℚ)[0]? = some v0 ∧
        ([3, 4, 0, 0] : List ℚ)[1]? = some v1 ∧ s1.vx = some vx' ∧
        vx'[0]? = some ![v0, v1, 0] := by
  have hthm := forwardKinematics_velocity_base_link smallAngleLib exampleConfig
    [3, 4, 0, 0]
  obtain ⟨s1, h1⟩ : ∃ s1, baseLink
      (basePoses smallAngleLib exampleConfig (allocate velocityState))
      (some [3, 4, 0, 0]) (allocate velocityState) = some s1 := ⟨_, rfl⟩
  obtain ⟨v0, v1, vx', h2, h3, h4, h5, -⟩ := hthm.2 _ _ s1 _ rfl h1
  exact ⟨hthm.1 velocityState, s1, h1, v0, v1, vx', h2, h3, h4, h5⟩

/-- Counterexample to C8 as stated: with velocity `(3, 4, 0, 0)` supplied and
`vx` requested, the call throws and `vx[0]` is still the zero vector it was
before the call, not `(3, 4, 0)`. -/
theorem velocity_base_link_not_computed :
    forwardKinematics smallAngleLib exampleConfig (some [3, 4, 0, 0]) velocityState
      = .throws .notImplemented velocityState ∧
    velocityState.vx = some [0, 0] ∧
    (0 : Vector3 ℚ) 0 ≠ (![3, 4, 0] : Vector3 ℚ) 0 := by
  refine ⟨rfl, rfl, ?_⟩
  norm_num

/-- C9: under the library's contract that `Rodrigues(0, 0, θ)` is the
rotation about the z-axis by `θ`, `computeBasePose3` returns, with or without
a Jacobian, the pose with rotation
`[[cos θ, -sin θ, 0], [sin θ, cos θ, 0], [0, 0, 1]]` and translation
`(x, y, 0)`; at `θ = 0` the rotation is the identity. -/
theorem computeBasePose3_pose (L : Rot3Lib α) (cos sin : α → α)
    (hL : ∀ θ, L.Rodrigues ![0, 0, θ] =
      !![cos θ, -sin θ, 0; sin θ, cos θ, 0; 0, 0, 1])
    (hcos : cos 0 = 1) (hsin : sin 0 = 0) (x y θ : α)
    (J : Option (Matrix63 α)) :
    (computeBasePose3 L ⟨x, y, θ⟩ J).1 =
      ⟨!![cos θ, -sin θ, 0; sin θ, cos θ, 0; 0, 0, 1], ![x, y, 0]⟩ ∧
    (computeBasePose3 L ⟨x, y, 0⟩ J).1 = ⟨1, ![x, y, 0]⟩ := by
  refine ⟨?_, ?_⟩
  · rw [computeBasePose3_fst, hL]
  · rw [computeBasePose3_fst, hL, hcos, hsin]
    congr 1
    ext i j
    fin_cases i <;> fin_cases j <;>
      simp [Matrix.one_apply, Matrix.vecHead, Matrix.vecTail]

/-- Witness for C9: the library's small-angle branch, for which
`Rodrigues(0, 0, θ)` has cosine `1` and sine `θ`, at the pose (1, 2, 0). -/
theorem computeBasePose3_pose_witness :
    (∀ θ : ℚ, smallAngleLib.Rodrigues ![0, 0, θ] =
      !![1, -θ, 0; θ, 1, 0; 0, 0, 1]) ∧
    (computeBasePose3 smallAngleLib ⟨1, 2, 0⟩ none).1 =
      ⟨!![1, -0, 0; 0, 1, 0; 0, 0, 1], ![1, 2, 0]⟩ ∧
    (computeBasePose3 smallAngleLib ⟨1, 2, 0⟩ none).1 = ⟨1, ![1, 2, 0]⟩ := by
  have hL : ∀ θ : ℚ, smallAngleLib.Rodrigues ![0, 0, θ] =
      !![(fun _ => (1 : ℚ)) θ, -(fun t : ℚ => t) θ, 0;
         (fun t : ℚ => t) θ, (fun _ => (1 : ℚ)) θ, 0; 0, 0, 1] := by
    intro θ
    ext i j
    fin_cases i <;> fin_cases j <;>
      simp [smallAngleLib, skewSymmetric, Matrix.one_apply, Matrix.vecHead,
        Matrix.vecTail]
  exact ⟨hL, computeBasePose3_pose smallAngleLib (fun _ => 1) (fun t => t) hL
    rfl rfl 1 2 0 none⟩

/-- C10: the 6x3 Jacobian written by `computeBasePose3` has the third column
of `ExpmapDerivative(0, 0, θ)` in rows 0..2 of column 2, the 2x2 identity in
rows 3..4, columns 0..1, and zero everywhere else, whatever the matrix held
before the call. -/
theorem computeBasePose3_jacobian_entries (L : Rot3Lib α) (x y θ : α)
    (J0 : Matrix63 α) :
    (computeBasePose3 L ⟨x, y, θ⟩ (some J0)).2 =
      some !![0, 0, L.ExpmapDerivative ![0, 0, θ] 0 2;
              0, 0, L.ExpmapDerivative ![0, 0, θ] 1 2;
              0, 0, L.ExpmapDerivative ![0, 0, θ] 2 2;
              1, 0, 0;
              0, 1, 0;
              0, 0, 0] :=
  computeBasePose3_jacobian L ⟨x, y, θ⟩ J0

end Claims

/-! ## The lift as a map of groups, the composer, and the guards -/

section Claims2

variable {α : Type} [CommRing α]

/-- C12: `computeArmBasePose(pose)` returns
`computeBasePose3(pose).compose(base_T_arm)`, and the pose is the same with
and without a Jacobian. -/
theorem computeArmBasePose_eq_compose (L : Rot3Lib α) (base_T_arm : Pose3 α)
    (pose : Pose2 α) (J : Option (Matrix63 α)) (J0 : Matrix63 α) :
    (computeArmBasePose L base_T_arm pose J).1 =
      ((computeBasePose3 L pose none).1.compose base_T_arm).1 ∧
    (computeArmBasePose L base_T_arm pose none).1 =
      (computeArmBasePose L base_T_arm pose (some J0)).1 := by
  refine ⟨?_, rfl⟩
  cases J <;> rfl

/-- C13: the Jacobian written by `computeArmBasePose` is `Hcomp * Hbasep3`,
with `Hbasep3` the Jacobian of `computeBasePose3` for the same pose and
`Hcomp` the Jacobian of the composition with respect to its left operand, the
adjoint map of `base_T_arm^-1`; for the identity mount transform it is the
lift's Jacobian. -/
theorem computeArmBasePose_jacobian (L : Rot3Lib α) (base_T_arm : Pose3 α)
    (pose : Pose2 α) (J0 J1 : Matrix63 α) :
    ∃ Hbasep3 Hcomp,
      (computeBasePose3 L pose (some J1)).2 = some Hbasep3 ∧
      ((computeBasePose3 L pose (some J1)).1.compose base_T_arm).2 = Hcomp ∧
      Hcomp = base_T_arm.inverse.AdjointMap ∧
      (computeArmBasePose L base_T_arm pose (some J0)).2 = some (Hcomp * Hbasep3) ∧
      (computeArmBasePose L Pose3.identity pose (some J0)).2 = some Hbasep3 := by
  refine ⟨_, _, computeBasePose3_snd_isSome L pose J1, rfl, rfl, rfl, ?_⟩
  rw [computeArmBasePose_snd_some, Pose3.AdjointMap_identity_inverse, Matrix.one_mul]
  rfl

/-- C16: when `forwardKinematics` throws either error, nothing has been
computed: the state at the throw is the state before the call, so `px`, `vx`,
`J_px_p`, `J_vx_p`, `J_vx_v` and the arm's base pose are unchanged. -/
theorem forwardKinematics_throws_unchanged (L : Rot3Lib α) (p : Pose2Vector α)
    (v : Option (List α)) (s s1 : FKState α) (e : FKError)
    (h : forwardKinematics L p v s = .throws e s1) :
    s1 = s ∧ s1.px = s.px ∧ s1.vx = s.vx ∧ s1.J_px_p = s.J_px_p ∧
    s1.J_vx_p = s.J_vx_p ∧ s1.J_vx_v = s.J_vx_v ∧
    s1.robot.arm_.base_pose = s.robot.arm_.base_pose := by
  have hs : s1 = s := by
    unfold forwardKinematics at h
    split at h
    · simp only [Outcome.throws.injEq] at h
      exact h.2.symm
    · split at h
      · simp only [Outcome.throws.injEq] at h
        exact h.2.symm
      · split at h <;> cases h
  subst hs
  exact ⟨rfl, rfl, rfl, rfl, rfl, rfl, rfl⟩

/-- Witness for C16: the one-joint example with `vx` requested and no
velocity input throws, and the state at the throw is the state before. -/
theorem forwardKinematics_throws_unchanged_witness :
    forwardKinematics smallAngleLib exampleConfig none velocityState
      = .throws .invalidRequest velocityState ∧
    velocityState = velocityState ∧ velocityState.px = velocityState.px ∧
    velocityState.vx = velocityState.vx ∧
    velocityState.J_px_p = velocityState.J_px_p ∧
    velocityState.J_vx_p = velocityState.J_vx_p ∧
    velocityState.J_vx_v = velocityState.J_vx_v ∧
    velocityState.robot.arm_.base_pose = velocityState.robot.arm_.base_pose :=
  ⟨rfl, forwardKinematics_throws_unchanged smallAngleLib exampleConfig none
    velocityState velocityState .invalidRequest rfl⟩


theorem list_eq_singleton {β : Type} {xs : List β} {x : β} (hlen : xs.length = 1)
    (h0 : xs[0]? = some x) : xs = [x] := by
  match xs, hlen, h0 with
  | [y], _, h0 =>
    simp only [List.getElem?_cons_zero, Option.some.injEq] at h0
    rw [h0]

theorem baseLink_vx_none {b : BasePoses α} {s : FKState α} (h : s.vx = none)
    (v v' : Option (List α)) : baseLink b v s = baseLink b v' s := by
  unfold baseLink
  simp only [h]

theorem forwardKinematicsBody_velocity_outputs {L : Rot3Lib α}
    {p : Pose2Vector α} {s s' : FKState α}
    (hvx : s.vx = none) (hvp : s.J_vx_p = none) (hvv : s.J_vx_v = none)
    (h : forwardKinematicsBody L p none s = some s') :
    s'.vx = none ∧ s'.J_vx_p = none ∧ s'.J_vx_v = none := by
  unfold forwardKinematicsBody at h
  simp only [Option.bind_eq_bind, Option.bind_eq_some] at h
  obtain ⟨s1, hbase, jv, -, hloop⟩ := h
  have havx : (allocate s).vx = none := by simp [allocate, hvx]
  obtain ⟨-, -, -, hvx1, hvp1, hvv1, -⟩ := baseLink_eq_some havx hbase
  obtain ⟨-, hvx2, hvp2, hvv2, -⟩ := armLinks_eq_some _ _ _ _ hloop
  simp only at hvx2 hvp2 hvv2
  refine ⟨hvx2.trans hvx1, ?_, ?_⟩
  · rw [hvp2, hvp1]
    simp [allocate, hvp]
  · rw [hvv2, hvv1]
    simp [allocate, hvv]

/-- C14: for an arm without joints a call that returns leaves exactly one
link pose, `computeBasePose3(p.pose())`, and, when `J_px_p` is requested,
exactly one `6 x 3` matrix equal to the lift's Jacobian; with the identity
mount transform that pose is also `computeArmBasePose(p.pose())`. -/
theorem forwardKinematics_no_joints (L : Rot3Lib α) (arm : Arm α) (M : Pose3 α)
    (p : Pose2Vector α) (s s' : FKState α) (H₀ : Matrix63 α)
    (hdof : arm.dof = 0)
    (hs : s.robot = Pose2MobileArm.new arm M)
    (hret : forwardKinematics L p none s = .returns s') :
    s'.px = [(computeBasePose3 L p.pose none).1] ∧
    (s.J_px_p.isSome = true → ∃ J0 H, s'.J_px_p = some [J0] ∧
      J0.rows = 6 ∧ J0.cols = 3 ∧
      (computeBasePose3 L p.pose (some H₀)).2 = some H ∧
      ∀ (r : Fin 6) (c : Fin 3), J0.coeff r c = H r c) ∧
    (M = Pose3.identity →
      (computeBasePose3 L p.pose none).1 = (computeArmBasePose L M p.pose none).1) := by
  have hspec := forwardKinematics_returns_spec hs hret
  obtain ⟨hv, -⟩ := basePoses_allocate_poses (L := L) (p := p) hs
  obtain ⟨-, -, -, -, hlen, h0, -, hJs⟩ := hspec
  rw [hdof] at hlen
  rw [hv] at h0
  refine ⟨list_eq_singleton hlen h0, ?_, ?_⟩
  · intro hJ
    rcases hJs with ⟨hn, -⟩ | ⟨J', -, hJ', hlenJ, ⟨J0', hset, hget⟩, -⟩
    · rw [hn] at hJ
      cases hJ
    · rw [hdof] at hlenJ hset
      rw [basePoses_allocate_requested hs hJ] at hset
      obtain ⟨-, hr, hc, hin, -⟩ := DMatrix.setBlockFixed_origin hset
      refine ⟨J0', _, ?_, hr, hc, computeBasePose3_snd_isSome L p.pose H₀, ?_⟩
      · rw [hJ', list_eq_singleton hlenJ hget]
      · intro r c
        rw [hin r c]
        rfl
  · intro hM
    rw [hM, computeArmBasePose_fst, Pose3.mul_identity]

/-- C20: `forwardKinematics` passes its two guards exactly when `v` is absent
and none of `vx`, `J_vx_p`, `J_vx_v` is requested, and then runs lines 43-99;
with `v` supplied the error is the unimplemented-path one, whatever is
requested.  Hence, when the guards are passed, `vx` is absent in the
base-link code, which then does not depend on `v` (the branch that reads `v`
is not taken), and a call that returns leaves `vx`, `J_vx_p`, `J_vx_v`
absent as they were. -/
theorem forwardKinematics_guards (L : Rot3Lib α) (p : Pose2Vector α)
    (v : Option (List α)) (s : FKState α) :
    ((∀ e s1, forwardKinematics L p v s ≠ .throws e s1) ↔
      (v = none ∧ s.vx = none ∧ s.J_vx_p = none ∧ s.J_vx_v = none)) ∧
    ((v = none ∧ s.vx = none ∧ s.J_vx_p = none ∧ s.J_vx_v = none) →
      forwardKinematics L p v s =
        match forwardKinematicsBody L p v s with
        | some s' => .returns s'
        | none => .undefined) ∧
    (∀ vv, v = some vv → forwardKinematics L p v s = .throws .notImplemented s) ∧
    ((∀ e s1, forwardKinematics L p v s ≠ .throws e s1) →
      (allocate s).vx = none ∧
      ∀ (b : BasePoses α) (v' : Option (List α)),
        baseLink b v (allocate s) = baseLink b v' (allocate s)) ∧
    (∀ s', forwardKinematics L p v s = .returns s' →
      (s.vx = none ∧ s'.vx = none) ∧ (s.J_vx_p = none ∧ s'.J_vx_p = none) ∧
      (s.J_vx_v = none ∧ s'.J_vx_v = none)) := by
  have hpass : (v = none ∧ s.vx = none ∧ s.J_vx_p = none ∧ s.J_vx_v = none) →
      forwardKinematics L p v s =
        match forwardKinematicsBody L p v s with
        | some s' => .returns s'
        | none => .undefined := by
    rintro ⟨rfl, h1, h2, h3⟩
    simp only [forwardKinematics, h1, h2, h3, Option.isSome_none, Bool.or_self,
      Bool.and_false, Bool.false_eq_true, if_false]
  have hiff : (∀ e s1, forwardKinematics L p v s ≠ .throws e s1) ↔
      (v = none ∧ s.vx = none ∧ s.J_vx_p = none ∧ s.J_vx_v = none) := by
    constructor
    · intro h
      cases v with
      | some vv => exact absurd (by simp [forwardKinematics]) (h .notImplemented s)
      | none =>
        by_contra hne
        apply h .invalidRequest s
        unfold forwardKinematics
        cases h1 : s.vx <;> cases h2 : s.J_vx_p <;> cases h3 : s.J_vx_v <;>
          simp_all
    · intro hc e s1 heq
      rw [hpass hc] at heq
      split at heq <;> cases heq
  refine ⟨hiff, hpass, ?_, ?_, ?_⟩
  · rintro vv rfl
    simp [forwardKinematics]
  · intro h
    obtain ⟨-, h1, -, -⟩ := hiff.mp h
    have h2 : (allocate s).vx = none := by simp [allocate, h1]
    exact ⟨h2, fun b v' => baseLink_vx_none h2 v v'⟩
  · intro s' hret
    obtain ⟨rfl, h1, h2, h3, hb⟩ := forwardKinematics_eq_returns hret
    obtain ⟨h4, h5, h6⟩ := forwardKinematicsBody_velocity_outputs h1 h2 h3 hb
    exact ⟨⟨h1, h4⟩, ⟨h2, h5⟩, ⟨h3, h6⟩⟩



theorem expmapDerivative_col2 {L : Rot3Lib α} {θ a b : α}
    (hform : L.ExpmapDerivative ![0, 0, θ] =
      1 - a • skewSymmetric ![0, 0, θ] +
        b • (skewSymmetric ![0, 0, θ] * skewSymmetric ![0, 0, θ])) :
    L.ExpmapDerivative ![0, 0, θ] 0 2 = 0 ∧ L.ExpmapDerivative ![0, 0, θ] 1 2 = 0 ∧
    L.ExpmapDerivative ![0, 0, θ] 2 2 = 1 := by
  rw [hform]
  refine ⟨?_, ?_, ?_⟩ <;>
    simp [skewSymmetric, Matrix.mul_apply, Fin.sum_univ_three, Matrix.one_apply,
      Matrix.vecHead, Matrix.vecTail]

theorem computeBasePose3_jacobian_const {L : Rot3Lib α} {θ a b : α} (x y : α)
    (J0 : Matrix63 α)
    (hform : L.ExpmapDerivative ![0, 0, θ] =
      1 - a • skewSymmetric ![0, 0, θ] +
        b • (skewSymmetric ![0, 0, θ] * skewSymmetric ![0, 0, θ])) :
    (computeBasePose3 L ⟨x, y, θ⟩ (some J0)).2 =
      some !![0, 0, 0; 0, 0, 0; 0, 0, 1; 1, 0, 0; 0, 1, 0; 0, 0, 0] := by
  obtain ⟨h0, h1, h2⟩ := expmapDerivative_col2 hform
  rw [computeBasePose3_jacobian]
  simp only [h0, h1, h2]

theorem rotZ_mul (c1 s1 c2 s2 : α) :
    (!![c1, -s1, 0; s1, c1, 0; 0, 0, 1] : Matrix3 α) * !![c2, -s2, 0; s2, c2, 0; 0, 0, 1] =
      !![c1 * c2 - s1 * s2, -(s1 * c2 + c1 * s2), 0;
         s1 * c2 + c1 * s2, c1 * c2 - s1 * s2, 0; 0, 0, 1] := by
  ext i j
  fin_cases i <;> fin_cases j <;>
    simp [Matrix.mul_apply, Fin.sum_univ_three, Matrix.vecHead, Matrix.vecTail] <;> ring

/-- C17: when the library's `ExpmapDerivative(w)` has its documented form
`I - a [w]x + b [w]x^2` (any scalars `a`, `b`, so both the general and the
small-angle branch), its third column at `w = (0, 0, θ)` is `(0, 0, 1)` and
the Jacobian written by `computeBasePose3` is the constant matrix with ones
at (2, 2), (3, 0), (4, 1) and zero elsewhere, for every `x`, `y`, `θ`. -/
theorem computeBasePose3_jacobian_constant (L : Rot3Lib α) (x y θ a b : α)
    (J0 : Matrix63 α)
    (hform : L.ExpmapDerivative ![0, 0, θ] =
      1 - a • skewSymmetric ![0, 0, θ] +
        b • (skewSymmetric ![0, 0, θ] * skewSymmetric ![0, 0, θ])) :
    (L.ExpmapDerivative ![0, 0, θ] 0 2 = 0 ∧ L.ExpmapDerivative ![0, 0, θ] 1 2 = 0 ∧
      L.ExpmapDerivative ![0, 0, θ] 2 2 = 1) ∧
    (computeBasePose3 L ⟨x, y, θ⟩ (some J0)).2 =
      some !![0, 0, 0; 0, 0, 0; 0, 0, 1; 1, 0, 0; 0, 1, 0; 0, 0, 0] :=
  ⟨expmapDerivative_col2 hform, computeBasePose3_jacobian_const x y J0 hform⟩

theorem smallAngleLib_form (w : Vector3 ℚ) :
    smallAngleLib.ExpmapDerivative w =
      1 - (1 / 2 : ℚ) • skewSymmetric w + (0 : ℚ) • (skewSymmetric w * skewSymmetric w) := by
  simp [smallAngleLib]

theorem smallAngleLib_Rodrigues_z (t : ℚ) :
    smallAngleLib.Rodrigues ![0, 0, t] =
      !![(fun _ : ℚ => (1 : ℚ)) t, -(fun u : ℚ => u) t, 0;
         (fun u : ℚ => u) t, (fun _ : ℚ => (1 : ℚ)) t, 0; 0, 0, 1] := by
  ext i j
  fin_cases i <;> fin_cases j <;>
    simp [smallAngleLib, skewSymmetric, Matrix.one_apply, Matrix.vecHead,
      Matrix.vecTail]

/-- Witness for C17: the small-angle branch (`a = 1/2`, `b = 0`) at the pose
(1, 2, 0). -/
theorem computeBasePose3_jacobian_constant_witness :
    (smallAngleLib.ExpmapDerivative ![0, 0, 0] 0 2 = 0 ∧
      smallAngleLib.ExpmapDerivative ![0, 0, 0] 1 2 = 0 ∧
      smallAngleLib.ExpmapDerivative ![0, 0, 0] 2 2 = 1) ∧
    (computeBasePose3 smallAngleLib ⟨1, 2, 0⟩ (some 0)).2 =
      some !![0, 0, 0; 0, 0, 0; 0, 0, 1; 1, 0, 0; 0, 1, 0; 0, 0, 0] :=
  computeBasePose3_jacobian_constant smallAngleLib 1 2 0 (1 / 2) 0 0
    (smallAngleLib_form _)

/-- C18: under the library's contract (`Rodrigues(0, 0, t)` is the
z-rotation by `t`; `cos`, `sin` obey the addition formulas at the two angles,
`cos 0 = 1`, `sin 0 = 0`, `cos` is even and `sin` odd at `a.theta`),
`computeBasePose3` maps the planar composition to the 3D composition, the
planar identity to the 3D identity and the planar inverse to the 3D
inverse. -/
theorem computeBasePose3_homomorphism (L : Rot3Lib α) (cos sin : α → α)
    (a b : Pose2 α) (J : Option (Matrix63 α))
    (hR : ∀ t, L.Rodrigues ![0, 0, t] =
      !![cos t, -sin t, 0; sin t, cos t, 0; 0, 0, 1])
    (hc : cos (a.theta + b.theta) =
      cos a.theta * cos b.theta - sin a.theta * sin b.theta)
    (hs : sin (a.theta + b.theta) =
      sin a.theta * cos b.theta + cos a.theta * sin b.theta)
    (hc0 : cos 0 = 1) (hs0 : sin 0 = 0)
    (hcn : cos (-a.theta) = cos a.theta) (hsn : sin (-a.theta) = -sin a.theta) :
    (computeBasePose3 L (Pose2.compose cos sin a b) J).1 =
      ((computeBasePose3 L a J).1.compose (computeBasePose3 L b J).1).1 ∧
    (computeBasePose3 L Pose2.identity J).1 = Pose3.identity ∧
    (computeBasePose3 L (Pose2.inverse cos sin a) J).1 =
      (computeBasePose3 L a J).1.inverse := by
  refine ⟨?_, ?_, ?_⟩
  · simp only [computeBasePose3_fst, Pose3.compose, Pose3.mul, Pose2.compose, hR,
      rotZ_mul, hc, hs, Pose3.mk.injEq, true_and]
    ext i
    fin_cases i <;>
      simp [Matrix.mulVec, Matrix.dotProduct, Fin.sum_univ_three, Matrix.vecHead,
        Matrix.vecTail] <;> ring
  · simp only [computeBasePose3_fst, Pose2.identity, Pose3.identity, hR, hc0, hs0,
      Pose3.mk.injEq]
    constructor
    · ext i j
      fin_cases i <;> fin_cases j <;>
        simp [Matrix.one_apply, Matrix.vecHead, Matrix.vecTail]
    · ext i
      fin_cases i <;> rfl
  · simp only [computeBasePose3_fst, Pose2.inverse, Pose3.inverse, hR, hcn, hsn,
      Pose3.mk.injEq]
    constructor
    · ext i j
      fin_cases i <;> fin_cases j <;>
        simp [Matrix.transpose_apply, Matrix.vecHead, Matrix.vecTail]
    · ext i
      fin_cases i <;>
        simp [Matrix.mulVec, Matrix.dotProduct, Fin.sum_univ_three, Matrix.vecHead,
          Matrix.vecTail, Matrix.transpose_apply] <;> ring

/-- Witness for C18: the small-angle branch with `a = (1, 2, 0)` and
`b = (3, 4, 1/10)`. -/
theorem computeBasePose3_homomorphism_witness :
    (computeBasePose3 smallAngleLib
        (Pose2.compose (fun _ => 1) (fun u => u) ⟨1, 2, 0⟩ ⟨3, 4, 1 / 10⟩) none).1 =
      ((computeBasePose3 smallAngleLib ⟨1, 2, 0⟩ none).1.compose
        (computeBasePose3 smallAngleLib ⟨3, 4, 1 / 10⟩ none).1).1 ∧
    (computeBasePose3 smallAngleLib Pose2.identity none).1 = Pose3.identity ∧
    (computeBasePose3 smallAngleLib
        (Pose2.inverse (fun _ => 1) (fun u => u) ⟨1, 2, 0⟩) none).1 =
      (computeBasePose3 smallAngleLib ⟨1, 2, 0⟩ none).1.inverse :=
  computeBasePose3_homomorphism smallAngleLib (fun _ => 1) (fun u => u)
    ⟨1, 2, 0⟩ ⟨3, 4, 1 / 10⟩ none smallAngleLib_Rodrigues_z
    (by norm_num) (by norm_num) rfl rfl (by norm_num) (by norm_num)



theorem option_map_bind {β γ δ : Type} (x : Option β) (g : β → Option γ) (f : γ → δ) :
    (x.bind g).map f = x.bind fun a => (g a).map f := by
  cases x <;> rfl

theorem baseLink_robot (b : BasePoses α) (v : Option (List α)) (s : FKState α)
    (r : Pose2MobileArm α) :
    baseLink b v { s with robot := r } =
      (baseLink b v s).map fun t => { t with robot := r } := by
  obtain ⟨robot, px, vx, J1, J2, J3⟩ := s
  cases vx <;> cases J1 <;> cases J3 <;> cases v <;>
    simp only [baseLink, Option.bind_eq_bind, option_map_bind, Option.map_some',
      Option.some_bind, Option.none_bind, Option.map_none']

theorem baseLink_robot_eq {b : BasePoses α} {v : Option (List α)}
    {s s1 : FKState α} (h : baseLink b v s = some s1) : s1.robot = s.robot := by
  have h2 := baseLink_robot b v s s.robot
  have h3 : ({ s with robot := s.robot } : FKState α) = s := rfl
  rw [h3, h] at h2
  simp only [Option.map_some', Option.some.injEq] at h2
  exact (congrArg FKState.robot h2).trans rfl

theorem forwardKinematicsBody_prior_base_pose (L : Rot3Lib α) (p : Pose2Vector α)
    (v : Option (List α)) (s : FKState α) (arm : Arm α) (B B' : Pose3 α)
    (M : Pose3 α)
    (hs : s.robot = Pose2MobileArm.new (arm.updateBasePose B) M) :
    forwardKinematicsBody L p v
        { s with robot := Pose2MobileArm.new (arm.updateBasePose B') M } =
      forwardKinematicsBody L p v s := by
  obtain ⟨robot, px, vx, J1, J2, J3⟩ := s
  simp only at hs
  subst hs
  have ha : allocate (⟨Pose2MobileArm.new (arm.updateBasePose B') M, px, vx, J1, J2, J3⟩ :
      FKState α) =
      { allocate ⟨Pose2MobileArm.new (arm.updateBasePose B) M, px, vx, J1, J2, J3⟩ with
        robot := Pose2MobileArm.new (arm.updateBasePose B') M } := rfl
  unfold forwardKinematicsBody
  simp only [Option.bind_eq_bind]
  rw [ha, baseLink_robot]
  have hb : basePoses L p
      { allocate ⟨Pose2MobileArm.new (arm.updateBasePose B) M, px, vx, J1, J2, J3⟩ with
        robot := Pose2MobileArm.new (arm.updateBasePose B') M } =
      basePoses L p
        (allocate ⟨Pose2MobileArm.new (arm.updateBasePose B) M, px, vx, J1, J2, J3⟩) := rfl
  rw [hb]
  cases h1 : baseLink (basePoses L p
      (allocate ⟨Pose2MobileArm.new (arm.updateBasePose B) M, px, vx, J1, J2, J3⟩)) v
      (allocate ⟨Pose2MobileArm.new (arm.updateBasePose B) M, px, vx, J1, J2, J3⟩) with
  | none => rfl
  | some s1 =>
    have hr : s1.robot = Pose2MobileArm.new (arm.updateBasePose B) M :=
      baseLink_robot_eq h1
    obtain ⟨r1, px1, vx1, K1, K2, K3⟩ := s1
    simp only at hr
    subst hr
    rfl



theorem Pose3.mul_assoc (a b c : Pose3 α) : (a.mul b).mul c = a.mul (b.mul c) := by
  simp [Pose3.mul, Matrix.mul_assoc, Matrix.mulVec_add, add_assoc]

theorem Pose3.inverse_mul_cancel_left (A X : Pose3 α) (hA : A.R.transpose * A.R = 1) :
    (A.mul X).inverse.mul A = X.inverse := by
  have h1 : (A.R * X.R).transpose * A.R = X.R.transpose := by
    rw [Matrix.transpose_mul, Matrix.mul_assoc, hA, Matrix.mul_one]
  simp only [Pose3.mul, Pose3.inverse, Pose3.mk.injEq]
  refine ⟨h1, ?_⟩
  have h2 : -(A.t + A.R.mulVec X.t) + A.t = -(A.R.mulVec X.t) := by abel
  rw [← Matrix.mulVec_add, h2, Matrix.mulVec_neg, Matrix.mulVec_mulVec, h1,
    Matrix.mulVec_neg]

theorem Pose3.inverse_mul (M X : Pose3 α) (hM : M.R.transpose * M.R = 1) :
    (M.mul X).inverse = X.inverse.mul M.inverse := by
  simp only [Pose3.mul, Pose3.inverse, Pose3.mk.injEq]
  refine ⟨Matrix.transpose_mul _ _, ?_⟩
  have h3 : (X.R.transpose * M.R.transpose).mulVec (-(M.R.mulVec X.t)) =
      X.R.transpose.mulVec (-X.t) := by
    rw [Matrix.mulVec_neg, Matrix.mulVec_mulVec, Matrix.mul_assoc, hM, Matrix.mul_one,
      Matrix.mulVec_neg]
  have h4 : (X.R.transpose * M.R.transpose).mulVec (-M.t) =
      X.R.transpose.mulVec (M.R.transpose.mulVec (-M.t)) := by
    rw [Matrix.mulVec_mulVec]
  rw [neg_add, Matrix.mulVec_add, Matrix.transpose_mul, h3, h4, add_comm]

theorem skewSymmetric_add (u w : Vector3 α) :
    skewSymmetric (u + w) = skewSymmetric u + skewSymmetric w := by
  ext i j
  fin_cases i <;> fin_cases j <;>
    simp [skewSymmetric, Matrix.vecHead, Matrix.vecTail] <;> ring

/-- A rotation matrix (orthogonal, determinant 1) commutes with the cross
product: `[R v]x R = R [v]x`. -/
theorem skewSymmetric_rotate (R : Matrix3 α) (v : Vector3 α)
    (h1 : R.transpose * R = 1) (h2 : R.det = 1) :
    skewSymmetric (R.mulVec v) * R = R * skewSymmetric v := by
  have hadj : R.adjugate = R.transpose := by
    calc R.adjugate = (R.transpose * R) * R.adjugate := by rw [h1, Matrix.one_mul]
      _ = R.transpose * (R * R.adjugate) := Matrix.mul_assoc _ _ _
      _ = R.transpose := by rw [Matrix.mul_adjugate, h2, one_smul, Matrix.mul_one]
  rw [Matrix.adjugate_fin_three] at hadj
  have e00 := congrFun (congrFun hadj 0) 0
  have e01 := congrFun (congrFun hadj 0) 1
  have e02 := congrFun (congrFun hadj 0) 2
  have e10 := congrFun (congrFun hadj 1) 0
  have e11 := congrFun (congrFun hadj 1) 1
  have e12 := congrFun (congrFun hadj 1) 2
  have e20 := congrFun (congrFun hadj 2) 0
  have e21 := congrFun (congrFun hadj 2) 1
  have e22 := congrFun (congrFun hadj 2) 2
  simp [Matrix.transpose_apply, Matrix.vecHead, Matrix.vecTail] at e00 e01 e02 e10 e11 e12 e20 e21 e22
  ext i j
  fin_cases i <;> fin_cases j <;>
    simp [Matrix.mul_apply, Fin.sum_univ_three, skewSymmetric, Matrix.mulVec,
      Matrix.dotProduct, Matrix.vecHead, Matrix.vecTail]
  · linear_combination (v 2) * e10 - (v 1) * e20
  · linear_combination (v 0) * e20 - (v 2) * e00
  · linear_combination (v 1) * e00 - (v 0) * e10
  · linear_combination (v 2) * e11 - (v 1) * e21
  · linear_combination (v 0) * e21 - (v 2) * e01
  · linear_combination (v 1) * e01 - (v 0) * e11
  · linear_combination (v 2) * e12 - (v 1) * e22
  · linear_combination (v 0) * e22 - (v 2) * e02
  · linear_combination (v 1) * e02 - (v 0) * e12

theorem Pose3.AdjointMap_eq_blocks (a : Pose3 α) :
    a.AdjointMap =
      (Matrix.fromBlocks a.R 0 (skewSymmetric a.t * a.R) a.R).submatrix
        (@finSumFinEquiv 3 3).symm (@finSumFinEquiv 3 3).symm := by
  have key : ∀ i j : Fin (3 + 3),
      (a.AdjointMap : Matrix (Fin (3 + 3)) (Fin (3 + 3)) α) i j =
        (Matrix.fromBlocks a.R 0 (skewSymmetric a.t * a.R) a.R)
          ((@finSumFinEquiv 3 3).symm i) ((@finSumFinEquiv 3 3).symm j) := by
    intro i j
    induction i using Fin.addCases with
    | left i =>
      induction j using Fin.addCases with
      | left j =>
        rw [finSumFinEquiv_symm_apply_castAdd, finSumFinEquiv_symm_apply_castAdd]
        simp [Pose3.AdjointMap]
      | right j =>
        rw [finSumFinEquiv_symm_apply_castAdd, finSumFinEquiv_symm_apply_natAdd]
        simp [Pose3.AdjointMap]
    | right i =>
      induction j using Fin.addCases with
      | left j =>
        rw [finSumFinEquiv_symm_apply_natAdd, finSumFinEquiv_symm_apply_castAdd]
        simp [Pose3.AdjointMap]
      | right j =>
        rw [finSumFinEquiv_symm_apply_natAdd, finSumFinEquiv_symm_apply_natAdd]
        simp [Pose3.AdjointMap]
  ext i j
  exact key i j

theorem Pose3.AdjointMap_mul (a b : Pose3 α)
    (h : skewSymmetric (a.R.mulVec b.t) * a.R = a.R * skewSymmetric b.t) :
    (a.mul b).AdjointMap = a.AdjointMap * b.AdjointMap := by
  rw [Pose3.AdjointMap_eq_blocks, Pose3.AdjointMap_eq_blocks a,
    Pose3.AdjointMap_eq_blocks b, Matrix.submatrix_mul_equiv, Matrix.fromBlocks_multiply]
  simp only [Pose3.mul, Matrix.zero_mul, Matrix.mul_zero, add_zero, zero_add,
    skewSymmetric_add, Matrix.add_mul, Matrix.mul_assoc]
  rw [← Matrix.mul_assoc (skewSymmetric (a.R.mulVec b.t)) a.R b.R, h, Matrix.mul_assoc]



/-- C15: whatever base pose `B` the arm holds before the call, a call that
returns has set the arm's base pose to `computeArmBasePose(p.pose())`, the
link poses are those of the arm's kinematics evaluated at that base pose, the
mount transform is unchanged, and the call started from any other prior base
pose `B'` returns the very same state: poses and Jacobians do not depend on
the arm's base pose before the call. -/
theorem forwardKinematics_overrides_arm_base (L : Rot3Lib α) (arm : Arm α)
    (M : Pose3 α) (p : Pose2Vector α) (s s' : FKState α) (B : Pose3 α)
    (hs : s.robot = Pose2MobileArm.new (arm.updateBasePose B) M)
    (hret : forwardKinematics L p none s = .returns s') :
    s'.robot.arm_.base_pose = (computeArmBasePose L M p.pose none).1 ∧
    s'.robot.base_T_arm_ = M ∧
    (∀ i, i < arm.dof → ∃ armjpx_i,
      (arm.kinematics (computeArmBasePose L M p.pose none).1 p.configuration none
        false s.J_px_p.isSome false false).jpx[i]? = some armjpx_i ∧
      s'.px[i + 1]? = some armjpx_i) ∧
    ∀ B' : Pose3 α, forwardKinematics L p none
      { s with robot := Pose2MobileArm.new (arm.updateBasePose B') M } = .returns s' := by
  have hspec := forwardKinematics_returns_spec hs hret
  obtain ⟨-, ha⟩ := basePoses_allocate_poses (L := L) (p := p) hs
  simp only [ha] at hspec
  obtain ⟨hrobot, -, -, -, -, -, hlinks, -⟩ := hspec
  refine ⟨?_, ?_, hlinks, ?_⟩
  · rw [hrobot]
    rfl
  · rw [hrobot]
    rfl
  · intro B'
    obtain ⟨-, hvx, hvp, hvv, hb⟩ := forwardKinematics_eq_returns hret
    unfold forwardKinematics
    rw [forwardKinematicsBody_prior_base_pose L p none s arm B B' M hs, hb]
    simp [hvx, hvp, hvv]

/-- Witness for C15: the one-joint example started with the stale base pose
`(identity, (7, 8, 9))` returns the same state as started with the identity. -/
theorem forwardKinematics_overrides_arm_base_witness :
    ∃ s', forwardKinematics smallAngleLib exampleConfig none staleState = .returns s' ∧
      s'.robot.arm_.base_pose =
        (computeArmBasePose smallAngleLib Pose3.identity exampleConfig.pose none).1 ∧
      s'.robot.base_T_arm_ = Pose3.identity ∧
      forwardKinematics smallAngleLib exampleConfig none (exampleState 5) = .returns s' := by
  obtain ⟨s', h⟩ : ∃ s', forwardKinematics smallAngleLib exampleConfig none staleState
      = .returns s' := ⟨_, rfl⟩
  obtain ⟨h1, h2, -, h4⟩ := forwardKinematics_overrides_arm_base smallAngleLib
    (oneJointArm smallAngleLib 5) Pose3.identity exampleConfig staleState s'
    ⟨1, ![7, 8, 9]⟩ rfl h
  exact ⟨s', h, h1, h2, h4 Pose3.identity⟩

theorem transport_aux (L : Rot3Lib α) (arm : Arm α) (M X : Pose3 α)
    (p : Pose2Vector α) (s s' : FKState α) (i : Nat) (H₀ : Matrix63 α) (a b : α)
    (hs : s.robot = Pose2MobileArm.new arm M)
    (hJ : s.J_px_p.isSome = true)
    (hret : forwardKinematics L p none s = .returns s')
    (hi : i < arm.dof)
    (hRot : (L.Rodrigues ![0, 0, p.pose.theta]).transpose *
      L.Rodrigues ![0, 0, p.pose.theta] = 1)
    (hM : M.R.transpose * M.R = 1)
    (hX : X.R.transpose * X.R = 1) (hXdet : X.R.det = 1)
    (hform : L.ExpmapDerivative ![0, 0, p.pose.theta] =
      1 - a • skewSymmetric ![0, 0, p.pose.theta] +
        b • (skewSymmetric ![0, 0, p.pose.theta] * skewSymmetric ![0, 0, p.pose.theta]))
    (harm : ((arm.updateBasePose (computeArmBasePose L M p.pose none).1).forwardKinematics
        p.configuration none false true false false).jpx[i]? =
      some ((computeArmBasePose L M p.pose none).1.mul X)) :
    ∃ J Ji Harm_base Hveh_base,
      s'.J_px_p = some J ∧ J[i + 1]? = some Ji ∧
      (computeArmBasePose L M p.pose (some H₀)).2 = some Harm_base ∧
      (computeBasePose3 L p.pose (some H₀)).2 = some Hveh_base ∧
      (∀ (r : Fin 6) (c : Fin 3),
        Ji.coeff r c = (X.inverse.AdjointMap * Harm_base) r c) ∧
      X.inverse.AdjointMap * Harm_base = (M.mul X).inverse.AdjointMap * Hveh_base ∧
      (M.mul X).inverse.AdjointMap =
        ((computeBasePose3 L p.pose none).1.compose (M.mul X)).2 ∧
      s'.px[i + 1]? = some ((computeBasePose3 L p.pose none).1.compose (M.mul X)).1 ∧
      Hveh_base = !![0, 0, 0; 0, 0, 0; 0, 0, 1; 1, 0, 0; 0, 1, 0; 0, 0, 0] := by
  have hveh : (computeBasePose3 L p.pose (some H₀)).2 =
      some !![0, 0, 0; 0, 0, 0; 0, 0, 1; 1, 0, 0; 0, 1, 0; 0, 0, 0] :=
    computeBasePose3_jacobian_const p.pose.x p.pose.y H₀ hform
  have hveh0 : (computeBasePose3 L p.pose (some 0)).2.getD 0 =
      !![0, 0, 0; 0, 0, 0; 0, 0, 1; 1, 0, 0; 0, 1, 0; 0, 0, 0] := by
    rw [computeBasePose3_snd_some L p.pose 0 H₀, hveh]
    rfl
  have hab : computeArmBasePose L M p.pose (some H₀) =
      ((computeArmBasePose L M p.pose none).1,
        some (M.inverse.AdjointMap *
          (!![0, 0, 0; 0, 0, 0; 0, 0, 1; 1, 0, 0; 0, 1, 0; 0, 0, 0] : Matrix63 α))) := by
    refine Prod.ext ?_ ?_
    · exact (computeArmBasePose_fst _ _ _ _).trans (computeArmBasePose_fst _ _ _ _).symm
    · rw [computeArmBasePose_snd_some, hveh0]
  obtain ⟨J, Ji, armjpx_i, -, hJ', hJi, ha, -, hcols, -⟩ :=
    link_jacobian_blocks_aux L arm M p s s' H₀ _ _ i hs hJ hret hab hi
  rw [harm] at ha
  simp only [Option.some.injEq] at ha
  subst ha
  -- the arm base pose is a rigid pose
  have hbaseR : (computeArmBasePose L M p.pose none).1.R.transpose *
      (computeArmBasePose L M p.pose none).1.R = 1 := by
    rw [computeArmBasePose_fst, computeBasePose3_fst]
    simp only [Pose3.mul]
    rw [Matrix.transpose_mul, Matrix.mul_assoc,
      ← Matrix.mul_assoc (L.Rodrigues ![0, 0, p.pose.theta]).transpose, hRot,
      Matrix.one_mul, hM]
  rw [Pose3.inverse_mul_cancel_left _ _ hbaseR] at hcols
  -- the adjoint map of a product
  have hXt : X.R.transpose.transpose * X.R.transpose = 1 := by
    rw [Matrix.transpose_transpose]
    exact Matrix.mul_eq_one_comm.mp hX
  have hXtdet : X.R.transpose.det = 1 := by rw [Matrix.det_transpose, hXdet]
  have hadj : (M.mul X).inverse.AdjointMap =
      X.inverse.AdjointMap * M.inverse.AdjointMap := by
    rw [Pose3.inverse_mul M X hM]
    exact Pose3.AdjointMap_mul X.inverse M.inverse
      (skewSymmetric_rotate X.R.transpose M.inverse.t hXt hXtdet)
  -- the link pose
  have hspec := forwardKinematics_returns_spec hs hret
  obtain ⟨-, harmb⟩ := basePoses_allocate_poses (L := L) (p := p) hs
  simp only [harmb, hJ] at hspec
  obtain ⟨-, -, -, -, -, -, hlinks, -⟩ := hspec
  obtain ⟨pose, hp1, hp2⟩ := hlinks i hi
  rw [harm] at hp1
  simp only [Option.some.injEq] at hp1
  refine ⟨J, Ji, _, _, hJ', hJi, congrArg Prod.snd hab, hveh, hcols, ?_, rfl, ?_, rfl⟩
  · rw [hadj, Matrix.mul_assoc]
  · rw [hp2, ← hp1, computeArmBasePose_fst, Pose3.mul_assoc]
    rfl

/-- C19: for rigid poses (the library's rotation at `p` and the rotations of
`M` and `X` are orthogonal, `X`'s has determinant 1) and `ExpmapDerivative` of
the form `I - a [w]x + b [w]x^2`: if the arm returns
`armjpx[i] = computeArmBasePose(p.pose()).compose(X)`, then the base-parameter
block of `J_px_p[i+1]` is `AdjointMap(X^-1) * Harm_base`, which equals
`AdjointMap((M.compose(X))^-1) * Hveh_base`, the Jacobian of
`px[i+1] = computeBasePose3(p.pose()).compose(M.compose(X))` with respect to
its left operand times the lift's Jacobian; `Hveh_base` is a constant matrix,
so the block is the same for every base pose. -/
theorem forwardKinematics_transport (L : Rot3Lib α) (arm : Arm α) (M X : Pose3 α)
    (p : Pose2Vector α) (s s' : FKState α) (i : Nat) (H₀ : Matrix63 α) (a b : α)
    (hs : s.robot = Pose2MobileArm.new arm M)
    (hJ : s.J_px_p.isSome = true)
    (hret : forwardKinematics L p none s = .returns s')
    (hi : i < arm.dof)
    (hRot : (L.Rodrigues ![0, 0, p.pose.theta]).transpose *
      L.Rodrigues ![0, 0, p.pose.theta] = 1)
    (hM : M.R.transpose * M.R = 1)
    (hX : X.R.transpose * X.R = 1) (hXdet : X.R.det = 1)
    (hform : L.ExpmapDerivative ![0, 0, p.pose.theta] =
      1 - a • skewSymmetric ![0, 0, p.pose.theta] +
        b • (skewSymmetric ![0, 0, p.pose.theta] * skewSymmetric ![0, 0, p.pose.theta]))
    (harm : ((arm.updateBasePose (computeArmBasePose L M p.pose none).1).forwardKinematics
        p.configuration none false true false false).jpx[i]? =
      some ((computeArmBasePose L M p.pose none).1.mul X)) :
    ∃ J Ji Harm_base Hveh_base,
      s'.J_px_p = some J ∧ J[i + 1]? = some Ji ∧
      (computeArmBasePose L M p.pose (some H₀)).2 = some Harm_base ∧
      (computeBasePose3 L p.pose (some H₀)).2 = some Hveh_base ∧
      (∀ (r : Fin 6) (c : Fin 3),
        Ji.coeff r c = (X.inverse.AdjointMap * Harm_base) r c) ∧
      X.inverse.AdjointMap * Harm_base = (M.mul X).inverse.AdjointMap * Hveh_base ∧
      (M.mul X).inverse.AdjointMap =
        ((computeBasePose3 L p.pose none).1.compose (M.mul X)).2 ∧
      s'.px[i + 1]? = some ((computeBasePose3 L p.pose none).1.compose (M.mul X)).1 ∧
      Hveh_base = !![0, 0, 0; 0, 0, 0; 0, 0, 1; 1, 0, 0; 0, 1, 0; 0, 0, 0] :=
  transport_aux L arm M X p s s' i H₀ a b hs hJ hret hi hRot hM hX hXdet hform harm

theorem quarterTurnMount_rigid :
    quarterTurnMount.R.transpose * quarterTurnMount.R = 1 := by
  ext i j
  fin_cases i <;> fin_cases j <;>
    simp [quarterTurnMount, Matrix.mul_apply, Fin.sum_univ_three, Matrix.one_apply,
      Matrix.transpose_apply, Matrix.vecHead, Matrix.vecTail]

/-- Witness for C19: the one-joint example (`X` the translation (5, 0, 0))
mounted with `quarterTurnMount`. -/
theorem forwardKinematics_transport_witness :
    ∃ s', forwardKinematics smallAngleLib exampleConfig none mountedState = .returns s' ∧
      ∃ J Ji Harm_base Hveh_base,
        s'.J_px_p = some J ∧ J[0 + 1]? = some Ji ∧
        (computeArmBasePose smallAngleLib quarterTurnMount exampleConfig.pose
          (some 0)).2 = some Harm_base ∧
        (computeBasePose3 smallAngleLib exampleConfig.pose (some 0)).2 = some Hveh_base ∧
        (∀ (r : Fin 6) (c : Fin 3), Ji.coeff r c =
          ((⟨1, ![5, 0, 0]⟩ : Pose3 ℚ).inverse.AdjointMap * Harm_base) r c) ∧
        (⟨1, ![5, 0, 0]⟩ : Pose3 ℚ).inverse.AdjointMap * Harm_base =
          (quarterTurnMount.mul ⟨1, ![5, 0, 0]⟩).inverse.AdjointMap * Hveh_base ∧
        (quarterTurnMount.mul ⟨1, ![5, 0, 0]⟩).inverse.AdjointMap =
          ((computeBasePose3 smallAngleLib exampleConfig.pose none).1.compose
            (quarterTurnMount.mul ⟨1, ![5, 0, 0]⟩)).2 ∧
        s'.px[0 + 1]? = some ((computeBasePose3 smallAngleLib exampleConfig.pose
          none).1.compose (quarterTurnMount.mul ⟨1, ![5, 0, 0]⟩)).1 ∧
        Hveh_base = !![0, 0, 0; 0, 0, 0; 0, 0, 1; 1, 0, 0; 0, 1, 0; 0, 0, 0] := by
  obtain ⟨s', h⟩ : ∃ s', forwardKinematics smallAngleLib exampleConfig none mountedState
      = .returns s' := ⟨_, rfl⟩
  have hRot : (smallAngleLib.Rodrigues ![0, 0, exampleConfig.pose.theta]).transpose *
      smallAngleLib.Rodrigues ![0, 0, exampleConfig.pose.theta] = 1 := by
    have h0 : exampleConfig.pose.theta = 0 := rfl
    rw [h0, smallAngleLib_Rodrigues_zero, Matrix.transpose_one, Matrix.one_mul]
  exact ⟨s', h, forwardKinematics_transport smallAngleLib (oneJointArm smallAngleLib 5)
    quarterTurnMount ⟨1, ![5, 0, 0]⟩ exampleConfig mountedState s' 0 0 (1 / 2) 0
    rfl rfl h Nat.one_pos hRot quarterTurnMount_rigid
    (by rw [Matrix.transpose_one, Matrix.one_mul]) Matrix.det_one
    (smallAngleLib_form _) (oneJointArm_link_pose 5 _)⟩

/-- Witness for C14: the arm without joints at the base pose (1, 2, 0). -/
theorem forwardKinematics_no_joints_witness :
    ∃ s', forwardKinematics smallAngleLib ⟨⟨1, 2, 0⟩, []⟩ none baseOnlyState
        = .returns s' ∧
      s'.px = [(computeBasePose3 smallAngleLib ⟨1, 2, 0⟩ none).1] ∧
      (∃ J0 H, s'.J_px_p = some [J0] ∧ J0.rows = 6 ∧ J0.cols = 3 ∧
        (computeBasePose3 smallAngleLib ⟨1, 2, 0⟩ (some 0)).2 = some H ∧
        ∀ (r : Fin 6) (c : Fin 3), J0.coeff r c = H r c) ∧
      (computeBasePose3 smallAngleLib ⟨1, 2, 0⟩ none).1 =
        (computeArmBasePose smallAngleLib Pose3.identity ⟨1, 2, 0⟩ none).1 := by
  obtain ⟨s', h⟩ : ∃ s', forwardKinematics smallAngleLib ⟨⟨1, 2, 0⟩, []⟩ none
      baseOnlyState = .returns s' := ⟨_, rfl⟩
  obtain ⟨h1, h2, h3⟩ := forwardKinematics_no_joints smallAngleLib noJointArm
    Pose3.identity ⟨⟨1, 2, 0⟩, []⟩ baseOnlyState s' 0 rfl rfl h
  exact ⟨s', h, h1, h2 rfl, h3 rfl⟩

/-- Witness for C20: the one-joint example passes the guards and returns
without velocity outputs; with a velocity and `vx` requested it throws the
unimplemented-path error. -/
theorem forwardKinematics_guards_witness :
    (∀ e s1, forwardKinematics smallAngleLib exampleConfig none (exampleState 5)
      ≠ .throws e s1) ∧
    (∃ s', forwardKinematics smallAngleLib exampleConfig none (exampleState 5)
        = .returns s' ∧
      s'.vx = none ∧ s'.J_vx_p = none ∧ s'.J_vx_v = none) ∧
    forwardKinematics smallAngleLib exampleConfig (some [3, 4, 0, 0]) velocityState
      = .throws .notImplemented velocityState ∧
    (allocate (exampleState 5)).vx = none := by
  have hthm := forwardKinematics_guards smallAngleLib exampleConfig none (exampleState 5)
  have hthm2 := forwardKinematics_guards smallAngleLib exampleConfig
    (some [3, 4, 0, 0]) velocityState
  obtain ⟨hiff, -, -, hbranch, hret⟩ := hthm
  have hpass := hiff.mpr ⟨rfl, rfl, rfl, rfl⟩
  obtain ⟨s', h⟩ : ∃ s', forwardKinematics smallAngleLib exampleConfig none
      (exampleState 5) = .returns s' := ⟨_, rfl⟩
  obtain ⟨⟨-, h1⟩, ⟨-, h2⟩, ⟨-, h3⟩⟩ := hret s' h
  exact ⟨hpass, ⟨s', h, h1, h2, h3⟩, hthm2.2.2.1 _ rfl, (hbranch hpass).1⟩

end Claims2

end gpmp2
